import Mathlib

/-! Temporal aggregation engine of `src/index.js`.

A shallow embedding of the data-handling functions of `src/index.js`
(`parseCsvDate`, `loadCSV`, `buildCumulativeAndDaily`, `updateForDate`,
`computeCountryStats`, `updateTopCountries` and the interval callback of
`startPlay`) together with theorems about them.

Conventions of the embedding.

* A JavaScript `Map` is an insertion-ordered association list (`JSMap`): `set`
  on a present key overwrites the value in place, `set` on an absent key
  appends, so iteration order is first-insertion order as in ECMAScript.
* Case counts are integers (`Int`): `parseInt(..) || 0` yields an integer.
  The subtraction `cum - prevCum` of `buildCumulativeAndDaily` is rounded to
  the nearest double (`JS.roundDouble`) and a write into the `Float32Array` of
  `updateForDate` is rounded to the nearest single (`JS.fround`), as IEEE 754
  prescribes; both are exact up to `2^53` and `2^24`.  The running sums of
  `loadCSV` and `computeCountryStats` are kept as integer sums (they are exact
  in doubles below `2^53`).  Infinite values are not represented.
* A time value (`Date.prototype.getTime`) is `Option Int`: `none` is `NaN`
  (the time value of an Invalid Date), `some t` is `t` milliseconds.
* Rendering (three.js objects, DOM, lil-gui widgets) is not modelled.
-/

namespace CovidViz

/-! ## JavaScript `Map` -/

/-- A JavaScript `Map`: entries in insertion order, keys pairwise distinct when
built from `[]` by `JSMap.set`. -/
abbrev JSMap (κ : Type) (ν : Type) := List (κ × ν)

namespace JSMap

variable {κ ν : Type} [DecidableEq κ]

/-- The result of `Map.prototype.get`; `none` is `undefined`. -/
def get? : JSMap κ ν → κ → Option ν
  | [], _ => none
  | (k', v) :: t, k => if k' = k then some v else get? t k

/-- The result of `Map.prototype.has`. -/
def has (m : JSMap κ ν) (k : κ) : Bool := (get? m k).isSome

/-- The map after `Map.prototype.set`: overwrite in place, or append. -/
def set : JSMap κ ν → κ → ν → JSMap κ ν
  | [], k, v => [(k, v)]
  | (k', v') :: t, k, v => if k' = k then (k', v) :: t else (k', v') :: set t k v

/-- The keys in iteration order (`Array.from(map.keys())`). -/
def keys (m : JSMap κ ν) : List κ := m.map Prod.fst

end JSMap

/-! ## Rounding of JavaScript numbers -/

namespace JS

/-- The number of binary digits of `n`, by halving at most `fuel` times. -/
def bitLengthAux : Nat → Nat → Nat
  | 0, _ => 0
  | fuel + 1, n => if n = 0 then 0 else bitLengthAux fuel (n / 2) + 1

/-- The number of binary digits of `n` (`0` for `0`). -/
def bitLength (n : Nat) : Nat := bitLengthAux n n

/-- The integer `x` rounded to `p` significant binary digits, to nearest with
ties to the even significand (IEEE 754 `roundTiesToEven`): with `e` the number
of digits dropped, the significand `q = |x| / 2^e` goes up by one when the
remainder exceeds half of `2^e`, or equals it and `q` is odd.  Integers of
magnitude up to `2^p` are kept as they are. -/
def roundToBits (p : Nat) (x : Int) : Int :=
  if x.natAbs ≤ 2 ^ p then x
  else
    let e := bitLength x.natAbs - p
    let q := x.natAbs / 2 ^ e
    let r := x.natAbs % 2 ^ e
    let k := if 2 ^ (e - 1) < r ∨ (r = 2 ^ (e - 1) ∧ q % 2 = 1) then q + 1 else q
    if x < 0 then -((k * 2 ^ e : Nat) : Int) else ((k * 2 ^ e : Nat) : Int)

/-- The double nearest to the integer `x`: the result of a JavaScript
arithmetic operation whose exact value is `x` (53 significant digits; the
overflow to `Infinity` from `2^1024` on is not represented). -/
def roundDouble (x : Int) : Int := roundToBits 53 x

/-- The value stored by a write of the integer `x` into a `Float32Array`
(`Math.fround`: 24 significant digits; the overflow to `Infinity` from
`2^128` on is not represented). -/
def fround (x : Int) : Int := roundToBits 24 x

end JS

/-! ## `buildCumulativeAndDaily` -/

/-- The two derived globals `cumulativeByDate` and `dailyByDate`: one map
(location key to value) per date index. -/
structure Matrices where
  cumulativeByDate : List (JSMap String Int)
  dailyByDate : List (JSMap String Int)
  deriving DecidableEq, Repr

/-- One iteration of the inner loop `for (d = 0; d < dates.length; d++)` of
`buildCumulativeAndDaily` for the location `key`; the loop state is the two
matrices and `prevCum`. -/
def dateStep (rawValuesByDate : List (JSMap String Int)) (key : String)
    (st : Matrices × Int) (d : Nat) : Matrices × Int :=
  let prevCum := st.2
  let rawMap := rawValuesByDate[d]?.getD []
  let reported : Option Int := if JSMap.has rawMap key then JSMap.get? rawMap key else none
  let cum : Int :=
    match reported with
    | none => prevCum
    | some v => v
  let cumulativeByDate :=
    st.1.cumulativeByDate.set d (JSMap.set (st.1.cumulativeByDate[d]?.getD []) key cum)
  let daily := JS.roundDouble (cum - prevCum)
  let daily := if daily < 0 then 0 else daily
  let dailyByDate :=
    st.1.dailyByDate.set d (JSMap.set (st.1.dailyByDate[d]?.getD []) key daily)
  (⟨cumulativeByDate, dailyByDate⟩, cum)

/-- One iteration of the outer loop `for (k = 0; k < allKeys.length; k++)`:
`prevCum = 0`, then the inner loop over all date indices. -/
def keyStep (nDates : Nat) (rawValuesByDate : List (JSMap String Int))
    (M : Matrices) (key : String) : Matrices :=
  ((List.range nDates).foldl (dateStep rawValuesByDate key) (M, 0)).1

/-- The function `buildCumulativeAndDaily`, reading the globals `dates`
(only its length is used), `rawValuesByDate` and `locKeyToIndex` and producing
`cumulativeByDate` and `dailyByDate`. -/
def buildCumulativeAndDaily {τ : Type} (dates : List τ)
    (rawValuesByDate : List (JSMap String Int)) (locKeyToIndex : JSMap String Nat) :
    Matrices :=
  let init : Matrices := ⟨dates.map (fun _ => []), dates.map (fun _ => [])⟩
  let allKeys := JSMap.keys locKeyToIndex
  allKeys.foldl (keyStep dates.length rawValuesByDate) init

/-- The cumulative value of `key` at date index `d`, read from the matrix. -/
def cumulativeAt (M : Matrices) (key : String) (d : Nat) : Option Int :=
  JSMap.get? (M.cumulativeByDate[d]?.getD []) key

/-- The daily value of `key` at date index `d`, read from the matrix. -/
def dailyAt (M : Matrices) (key : String) (d : Nat) : Option Int :=
  JSMap.get? (M.dailyByDate[d]?.getD []) key

/-- The raw report for `key` at date index `d`; `none` when there is no entry. -/
def rawAt (rawValuesByDate : List (JSMap String Int)) (key : String) (d : Nat) : Option Int :=
  JSMap.get? (rawValuesByDate[d]?.getD []) key

/-! ## The per-location scan computed by `buildCumulativeAndDaily` -/

/-- The value of `cum` after iteration `d` of the inner loop for `key`. -/
def cumScan (rawValuesByDate : List (JSMap String Int)) (key : String) : Nat → Int
  | 0 => (rawAt rawValuesByDate key 0).getD 0
  | d + 1 => (rawAt rawValuesByDate key (d + 1)).getD (cumScan rawValuesByDate key d)

/-- The value of `prevCum` on entry to iteration `d` of the inner loop. -/
def prevScan (rawValuesByDate : List (JSMap String Int)) (key : String) : Nat → Int
  | 0 => 0
  | d + 1 => cumScan rawValuesByDate key d

/-- The value of `daily` stored by iteration `d` of the inner loop. -/
def dailyScan (rawValuesByDate : List (JSMap String Int)) (key : String) (d : Nat) : Int :=
  max 0 (JS.roundDouble (cumScan rawValuesByDate key d - prevScan rawValuesByDate key d))

/-- The cumulative value of `key` at date index `d` as a number. -/
def cumulativeVal (M : Matrices) (key : String) (d : Nat) : Int :=
  (cumulativeAt M key d).getD 0

/-- The cumulative value preceding date index `d`: `cumulative[d-1]`, with
`cumulative[-1]` taken as `0`. -/
def prevCumulativeVal (M : Matrices) (key : String) (d : Nat) : Int :=
  if d = 0 then 0 else cumulativeVal M key (d - 1)

/-- The daily value of `key` at date index `d` as a number. -/
def dailyVal (M : Matrices) (key : String) (d : Nat) : Int :=
  (dailyAt M key d).getD 0

/-- The sum of the daily values of `key` over the date indices `0 .. n-1`. -/
def dailySum (M : Matrices) (key : String) (n : Nat) : Int :=
  ((List.range n).map (dailyVal M key)).sum

/-! ## JavaScript numbers and the built-ins used by ingestion

Numbers are exact decimals: rounding to the nearest double and overflow to
`Infinity` are not modelled.  Local time is taken to be UTC. -/

/-- A JavaScript number: `NaN`, an infinity, or the finite value
`num / 10 ^ scale`. -/
inductive JSNum where
  | nan
  | inf (neg : Bool)
  | fin (num : Int) (scale : Nat)
  deriving DecidableEq, Repr

/-- A time value: `none` is `NaN`, `some t` is `t` milliseconds since the epoch. -/
abbrev TimeValue := Option Int

/-- A `Date` object, reduced to its time value. -/
structure JSDate where
  getTime : TimeValue
  deriving DecidableEq, Repr

namespace JS

/-- The global `isNaN` on a number. -/
def isNaN : JSNum → Bool
  | .nan => true
  | _ => false

/-- The comparison `x < k` for an integer constant `k` (false on `NaN`). -/
def ltInt : JSNum → Int → Bool
  | .nan, _ => false
  | .inf neg, _ => neg
  | .fin num scale, k => decide (num < k * 10 ^ scale)

/-- The sum `k + x` for an integer constant `k`. -/
def addInt (k : Int) : JSNum → JSNum
  | .nan => .nan
  | .inf neg => .inf neg
  | .fin num scale => .fin (k * 10 ^ scale + num) scale

/-- The abstract operation `ToIntegerOrInfinity` on a finite number: truncation
toward zero. -/
def truncate (num : Int) (scale : Nat) : Int :=
  if num < 0 then -((-num) / 10 ^ scale) else num / 10 ^ scale

/-- The code points of `WhiteSpace` and `LineTerminator`. -/
def isWhiteSpace (c : Char) : Bool :=
  c.toNat ∈ [9, 10, 11, 12, 13, 32, 160, 5760, 8232, 8233, 8239, 8287, 12288, 65279] ||
    (8192 ≤ c.toNat && c.toNat ≤ 8202)

/-- The method `String.prototype.trimStart`. -/
def trimStart (s : List Char) : List Char := s.dropWhile isWhiteSpace

/-- The method `String.prototype.trim`. -/
def trim (s : List Char) : List Char := (trimStart (trimStart s).reverse).reverse

/-- The method `String.prototype.split` with a one-character separator. -/
def split (sep : Char) : List Char → List (List Char)
  | [] => [[]]
  | c :: cs =>
    if c = sep then [] :: split sep cs
    else
      match split sep cs with
      | [] => [[c]]
      | h :: t => (c :: h) :: t

/-- The value of a digit in radix `radix` (at most 16), if `c` is one. -/
def digitVal (radix : Nat) (c : Char) : Option Nat :=
  let v :=
    if 48 ≤ c.toNat ∧ c.toNat ≤ 57 then c.toNat - 48
    else if 97 ≤ c.toNat ∧ c.toNat ≤ 102 then c.toNat - 87
    else if 65 ≤ c.toNat ∧ c.toNat ≤ 70 then c.toNat - 55
    else 16
  if v < radix then some v else none

/-- The longest prefix of digits in radix `radix`, as digit values, and the rest. -/
def takeDigits (radix : Nat) : List Char → List Nat × List Char
  | [] => ([], [])
  | c :: cs =>
    match digitVal radix c with
    | none => ([], c :: cs)
    | some v => ((takeDigits radix cs).1.cons v, (takeDigits radix cs).2)

/-- The number denoted by a digit sequence. -/
def digitsValue (radix : Nat) (ds : List Nat) : Nat :=
  ds.foldl (fun n d => n * radix + d) 0

/-- An optional sign: whether it is `-`, and the rest. -/
def takeSign : List Char → Bool × List Char
  | '-' :: cs => (true, cs)
  | '+' :: cs => (false, cs)
  | cs => (false, cs)

/-- An optional `ExponentPart`: its value (`0` when absent) and the rest. -/
def takeExponent : List Char → Int × List Char
  | [] => (0, [])
  | c :: cs =>
    if c = 'e' ∨ c = 'E' then
      let sg := takeSign cs
      let ds := takeDigits 10 sg.2
      if ds.1 = [] then (0, c :: cs)
      else ((if sg.1 then -(digitsValue 10 ds.1 : Int) else digitsValue 10 ds.1), ds.2)
    else (0, c :: cs)

/-- The finite number `± mant * 10 ^ (e - fracLen)`. -/
def mkFinite (neg : Bool) (mant : Nat) (fracLen : Nat) (e : Int) : JSNum :=
  let m : Int := if neg then -(mant : Int) else mant
  if (fracLen : Int) ≤ e then .fin (m * 10 ^ (e - fracLen).toNat) 0
  else .fin m ((fracLen : Int) - e).toNat

/-- The longest prefix that is a `StrDecimalLiteral` (sign, then `Infinity` or
decimal digits with optional fraction and exponent): its value and the rest;
`none` when no prefix is one. -/
def takeDecimalLiteral (s : List Char) : Option (JSNum × List Char) :=
  let sg := takeSign s
  if "Infinity".toList.isPrefixOf sg.2 then some (.inf sg.1, sg.2.drop 8)
  else
    let ip := takeDigits 10 sg.2
    let fp : List Nat × List Char :=
      match ip.2 with
      | '.' :: t =>
        if ip.1 = [] ∧ (takeDigits 10 t).1 = [] then ([], ip.2) else takeDigits 10 t
      | _ => ([], ip.2)
    if ip.1 = [] ∧ fp.1 = [] then none
    else
      let ex := takeExponent fp.2
      some (mkFinite sg.1 (digitsValue 10 (ip.1 ++ fp.1)) fp.1.length ex.1, ex.2)

/-- The radix of a `NonDecimalIntegerLiteral` prefix (`0x`, `0o`, `0b`). -/
def radixOfLiteral : List Char → Option (Nat × List Char)
  | '0' :: c :: cs =>
    if c = 'x' ∨ c = 'X' then some (16, cs)
    else if c = 'o' ∨ c = 'O' then some (8, cs)
    else if c = 'b' ∨ c = 'B' then some (2, cs)
    else none
  | _ => none

/-- The function `Number` applied to a string (`StringToNumber`). -/
def toNumber (s : List Char) : JSNum :=
  let t := trim s
  if t = [] then .fin 0 0
  else
    match radixOfLiteral t with
    | some (radix, cs) =>
      let ds := takeDigits radix cs
      if ds.1 ≠ [] ∧ ds.2 = [] then .fin (digitsValue radix ds.1) 0 else .nan
    | none =>
      match takeDecimalLiteral t with
      | some (v, []) => v
      | _ => .nan

/-- The global `parseFloat`.  The decimal read is kept as it is, where
JavaScript takes the double nearest to it: a field such as `8.00005`, which
lies on a rounding boundary of `toFixed(4)` as a decimal and just below it as a
double, gets the key digits `8.0001` here and `8.0000` in the program, and a
decimal beyond the double range stays finite here. -/
def parseFloat (s : List Char) : JSNum :=
  match takeDecimalLiteral (trimStart s) with
  | some (v, _) => v
  | none => .nan

/-- The global `parseInt` without a radix argument; `none` is `NaN`. -/
def parseInt (s : List Char) : Option Int :=
  let sg := takeSign (trimStart s)
  let rs : Nat × List Char :=
    match sg.2 with
    | '0' :: c :: cs => if c = 'x' ∨ c = 'X' then (16, cs) else (10, sg.2)
    | _ => (10, sg.2)
  let ds := takeDigits rs.1 rs.2
  if ds.1 = [] then none
  else some (if sg.1 then -(digitsValue rs.1 ds.1 : Int) else digitsValue rs.1 ds.1)

/-- The day number of the first day of year `y` (`DayFromYear`). -/
def dayFromYear (y : Int) : Int :=
  365 * (y - 1970) + (y - 1969) / 4 - (y - 1901) / 100 + (y - 1601) / 400

/-- Whether year `y` is a leap year. -/
def isLeapYear (y : Int) : Bool :=
  y % 4 = 0 ∧ (y % 100 ≠ 0 ∨ y % 400 = 0)

/-- The number of days of year `y` before month `mn` (`0` is January). -/
def daysBeforeMonth (y : Int) (mn : Nat) : Int :=
  ([0, 31, 59, 90, 120, 151, 181, 212, 243, 273, 304, 334].getD mn 0 : Int) +
    (if isLeapYear y ∧ 2 ≤ mn then 1 else 0)

/-- The abstract operation `MakeDay` on integers. -/
def makeDay (year month date : Int) : Int :=
  let ym := year + month / 12
  let mn := (month % 12).toNat
  dayFromYear ym + daysBeforeMonth ym mn + date - 1

/-- The constructor `new Date(year, monthIndex, day)`: non-finite arguments
give an Invalid Date, fractions are truncated, a year in `0 .. 99` means
`1900 + year`, and time values beyond `8.64e15` ms are clipped to `NaN`. -/
def newDate : JSNum → JSNum → JSNum → JSDate
  | .fin yn ys, .fin mn ms, .fin dn ds =>
    let y := truncate yn ys
    let yr := if 0 ≤ y ∧ y ≤ 99 then 1900 + y else y
    let tv := makeDay yr (truncate mn ms) (truncate dn ds) * 86400000
    if tv.natAbs ≤ 8640000000000000 then ⟨some tv⟩ else ⟨none⟩
  | _, _, _ => ⟨none⟩

/-- The four fractional digits of `toFixed(4)`. -/
def pad4 (r : Nat) : String :=
  String.mk [Nat.digitChar (r / 1000 % 10), Nat.digitChar (r / 100 % 10),
    Nat.digitChar (r / 10 % 10), Nat.digitChar (r % 10)]

/-- The method `Number.prototype.toFixed(4)`: the nearest multiple of `10^-4`,
ties to the larger magnitude.  (For magnitudes of `10^21` and more JavaScript
switches to exponent notation; the model keeps plain digits.) -/
def toFixed4 : JSNum → String
  | .nan => "NaN"
  | .inf neg => if neg then "-Infinity" else "Infinity"
  | .fin num scale =>
    let n := (2 * num.natAbs * 10 ^ 4 + 10 ^ scale) / (2 * 10 ^ scale)
    (if num < 0 then "-" else "") ++ toString (n / 10 ^ 4) ++ "." ++ pad4 (n % 10 ^ 4)

end JS

/-! ## `parseCsvDate` and `loadCSV` -/

/-- The function `parseCsvDate`; `none` is `null`. -/
def parseCsvDate (str : String) : Option JSDate :=
  if str = "" then none
  else
    let parts := (JS.split '/' str.toList).map JS.toNumber
    if parts.length < 3 then none
    else
      match parts with
      | m :: d :: y :: _ =>
        let y := if JS.ltInt y 100 then JS.addInt 2000 y else y
        some (JS.newDate y (JS.addInt (-1) m) d)
      | _ => none

/-- An element of the array `records` of `loadCSV`. -/
structure Record where
  country : String
  lat : JSNum
  lon : JSNum
  confirmed : Int
  dateTs : TimeValue
  deriving DecidableEq, Repr

/-- An element of the global `locations` (the projected position `pos` is
rendering data and is left out). -/
structure Location where
  lat : JSNum
  lon : JSNum
  country : String
  deriving DecidableEq, Repr

/-- The body of the row loop of `loadCSV`: the record pushed for one line, or
`none` when the line is skipped by a `continue`. -/
def parseRow (line : List Char) : Option Record :=
  let cols := JS.split ',' line
  if cols.length < 7 then none
  else
    let country := String.mk (cols.getD 2 [])
    let lat := JS.parseFloat (cols.getD 3 [])
    let lon := JS.parseFloat (cols.getD 4 [])
    let date := parseCsvDate (String.mk (cols.getD 5 []))
    let confirmed := (JS.parseInt (cols.getD 6 [])).getD 0
    match date with
    | none => none
    | some date =>
      if JS.isNaN lat || JS.isNaN lon then none
      else some ⟨country, lat, lon, confirmed, date.getTime⟩

/-- The array `lines` of `loadCSV`: the text split at newlines, each line
trimmed, empty lines removed. -/
def csvLines (csv : String) : List (List Char) :=
  ((JS.split '\n' csv.toList).map JS.trim).filter (fun l => 0 < l.length)

/-- The array `records` of `loadCSV`: one record per parsed line after the
header line. -/
def parseRecords (csv : String) : List Record :=
  (csvLines csv).tail.filterMap parseRow

/-- The inner function `locKey` of `loadCSV`. -/
def locKey (lat lon : JSNum) : String :=
  JS.toFixed4 lat ++ "," ++ JS.toFixed4 lon

/-- The constructor `new Set(array)` followed by `Array.from`: the distinct
elements in first-occurrence order. -/
def setOfArray {α : Type} [DecidableEq α] (xs : List α) : List α :=
  xs.foldl (fun s x => if x ∈ s then s else s ++ [x]) []

/-- The comparator `function (a, b) { return a - b; }` says `a` may stay before
`b`: the difference is not positive (a `NaN` difference counts as `0`). -/
def dateLe : TimeValue → TimeValue → Prop
  | some a, some b => a ≤ b
  | _, _ => True

instance : DecidableRel dateLe := fun a b => by
  cases a <;> cases b <;> unfold dateLe <;> infer_instance

/-- The global `dates`: the distinct time values of the records, sorted by
`Array.prototype.sort` with the comparator `a - b`.  The sort is stable, which
fixes its result when all time values are numbers; it is modelled by insertion
sort.  With a `NaN` time value among them the comparator is not consistent and
ECMAScript leaves the order to the engine: the order computed here is then one
admissible order and need not be the one of a given engine. -/
def buildDates (records : List Record) : List TimeValue :=
  (setOfArray (records.map (fun r => r.dateTs))).insertionSort dateLe

/-- The global `dateIndexMap` after `dates.forEach((d, i) => dateIndexMap.set(d, i))`. -/
def buildDateIndexMap (dates : List TimeValue) : JSMap TimeValue Nat :=
  dates.enum.foldl (fun m e => JSMap.set m e.2 e.1) []

/-- The globals written by the record loop of `loadCSV`. -/
structure LoadState where
  rawValuesByDate : List (JSMap String Int)
  locKeyToIndex : JSMap String Nat
  locations : List Location
  deriving DecidableEq, Repr

/-- One iteration of the loop `for (rIdx = 0; rIdx < records.length; rIdx++)`.
The date index `di` is always found, since `dateIndexMap` holds every time
value of `records`. -/
def recordStep (dateIndexMap : JSMap TimeValue Nat) (st : LoadState) (r : Record) : LoadState :=
  let di := (JSMap.get? dateIndexMap r.dateTs).getD 0
  let key := locKey r.lat r.lon
  let map := st.rawValuesByDate[di]?.getD []
  let rawValuesByDate :=
    st.rawValuesByDate.set di (JSMap.set map key ((JSMap.get? map key).getD 0 + r.confirmed))
  if ¬ JSMap.has st.locKeyToIndex key then
    let idx := st.locations.length
    { rawValuesByDate := rawValuesByDate
      locKeyToIndex := JSMap.set st.locKeyToIndex key idx
      locations := st.locations ++ [⟨r.lat, r.lon, r.country⟩] }
  else
    { st with rawValuesByDate := rawValuesByDate }

/-- The data globals of the program once `loadCSV` has run
`buildCumulativeAndDaily`. -/
structure Dataset where
  dates : List TimeValue
  dateIndexMap : JSMap TimeValue Nat
  rawValuesByDate : List (JSMap String Int)
  locKeyToIndex : JSMap String Nat
  locations : List Location
  cumulativeByDate : List (JSMap String Int)
  dailyByDate : List (JSMap String Int)
  deriving DecidableEq, Repr

/-- The state after the record loop of `loadCSV`, started from the initial
(empty) globals. -/
def loadRecords (records : List Record) : LoadState :=
  let dates := buildDates records
  let dateIndexMap := buildDateIndexMap dates
  records.foldl (recordStep dateIndexMap) ⟨dates.map (fun _ => []), [], []⟩

/-- The data part of `loadCSV` from the array `records` on: `dates`,
`dateIndexMap`, the record loop, then `buildCumulativeAndDaily`. -/
def ingest (records : List Record) : Dataset :=
  let dates := buildDates records
  let dateIndexMap := buildDateIndexMap dates
  let st := loadRecords records
  let M := buildCumulativeAndDaily dates st.rawValuesByDate st.locKeyToIndex
  { dates := dates
    dateIndexMap := dateIndexMap
    rawValuesByDate := st.rawValuesByDate
    locKeyToIndex := st.locKeyToIndex
    locations := st.locations
    cumulativeByDate := M.cumulativeByDate
    dailyByDate := M.dailyByDate }

/-- The data part of `loadCSV` on the text of the fetched file. -/
def loadCSV (csv : String) : Dataset :=
  ingest (parseRecords csv)

/-- The records that report for location key `key` on the date of index `d`. -/
def recordsFor (records : List Record) (dates : List TimeValue) (key : String) (d : Nat) :
    List Record :=
  records.filter (fun r => decide (locKey r.lat r.lon = key ∧ dates[d]? = some r.dateTs))

/-- The location key of a record, `locKey(r.lat, r.lon)`. -/
def Record.key (r : Record) : String := locKey r.lat r.lon

/-- Three sample records: two whose coordinates round to the same key
(latitudes `43` and `43.00001`) but with different countries, then one at
another place. -/
def sampleRecords : List Record :=
  [⟨"Italy", .fin 43 0, .fin 12 0, 30, some 1579737600000⟩,
   ⟨"San Marino", .fin 4300001 5, .fin 12 0, 20, some 1579651200000⟩,
   ⟨"China", .fin 309756 4, .fin 1122707 4, 444, some 1579651200000⟩]

/-- A file with a header line and one data row whose date field is `a/b/c`. -/
def csvWithBadDate : String :=
  "Province,Region,Country,Lat,Long,Date,Confirmed\nHubei,x,China,30.9756,112.2707,a/b/c,444"

/-- A file with a header line, one valid data row and one data row whose
latitude field is `abc`. -/
def csvWithBadLatitude : String :=
  "Province,Region,Country,Lat,Long,Date,Confirmed\n" ++
  "Hubei,x,China,30.9756,112.2707,1/22/20,444\n" ++
  "Hubei,x,China,abc,112.2707,1/23/20,450\n"

/-! ## `computeCountryStats`, `updateTopCountries`, `updateForDate`, playback -/

/-- The expression `locations[i].country || "Unknown"`. -/
def Location.label (loc : Location) : String :=
  if loc.country = "" then "Unknown" else loc.country

/-- One iteration of the loop of `computeCountryStats`.  Both array reads are
in range: `vals` has one entry per location. -/
def countryStep (locations : List Location) (vals : List Int)
    (stats : JSMap String Int) (i : Nat) : JSMap String Int :=
  match locations[i]?, vals[i]? with
  | some loc, some v =>
    if v ≤ 0 then stats
    else
      let c := loc.label
      JSMap.set stats c ((JSMap.get? stats c).getD 0 + v)
  | _, _ => stats

/-- The function `computeCountryStats`, reading the global `locations`. -/
def computeCountryStats (locations : List Location) (vals : List Int) : JSMap String Int :=
  (List.range locations.length).foldl (countryStep locations vals) []

/-- The comparator `function (a, b) { return b[1] - a[1]; }` says `a` may stay
before `b`: the difference is not positive. -/
def totalGe (a b : String × Int) : Prop := ¬ (0 < b.2 - a.2)

instance : DecidableRel totalGe := fun a b => by
  unfold totalGe; infer_instance

instance : IsTotal (String × Int) totalGe :=
  ⟨fun a b => by unfold totalGe; omega⟩

instance : IsTrans (String × Int) totalGe :=
  ⟨fun a b c hab hbc => by unfold totalGe at *; omega⟩

/-- The array `topN` computed by `updateTopCountries` (the HTML written from it
is not modelled); `topN` is `settings.topN`.  `Array.prototype.sort` is stable
and is modelled by insertion sort. -/
def updateTopCountries (topN : Nat) (statsMap : JSMap String Int) : List (String × Int) :=
  let arr : List (String × Int) := statsMap
  let arr := arr.insertionSort totalGe
  arr.take (min topN arr.length)

/-- The fields of `settings` that the data functions read or write;
`dateLabel` is kept as the time value whose locale string is shown, `none` for
the empty label. -/
structure Settings where
  dateIndex : Int
  playing : Bool
  speedMs : Nat
  cumulative : Bool
  topN : Nat
  dateLabel : Option TimeValue
  deriving DecidableEq, Repr

/-- The module state read and written by `updateForDate` and by playback.
`values` is the last array computed by `updateForDate` (it drives the instance
scales), `topPanel` the last ranked list written to the panel, `playInterval`
the period of the active timer or `none` for `null`. -/
structure Engine where
  dates : List TimeValue
  cumulativeByDate : List (JSMap String Int)
  dailyByDate : List (JSMap String Int)
  locKeyToIndex : JSMap String Nat
  locations : List Location
  instancedCount : Nat
  currentDateIndex : Int
  playInterval : Option Nat
  settings : Settings
  values : List Int
  topPanel : List (String × Int)
  deriving DecidableEq, Repr

/-- The callback of `mapToUse.forEach` in `updateForDate`: the write
`values[i] = v` for a registered key.  A write rounds the number to single
precision, and a write past the end of a typed array is ignored. -/
def valuesStep (locKeyToIndex : JSMap String Nat) (values : List Int) (e : String × Int) :
    List Int :=
  match JSMap.get? locKeyToIndex e.1 with
  | some i => values.set i (JS.fround e.2)
  | none => values

/-- The array `values` of `updateForDate`: a `Float32Array` of `instancedCount`
zeros, then `valuesStep` for every entry of the chosen map in map order. -/
def valuesOf (instancedCount : Nat) (locKeyToIndex : JSMap String Nat)
    (mapToUse : JSMap String Int) : List Int :=
  mapToUse.foldl (valuesStep locKeyToIndex) (List.replicate instancedCount 0)

/-- The map `mapToUse` of `updateForDate` for date index `i`. -/
def mapForDate (E : Engine) (i : Nat) : JSMap String Int :=
  if E.settings.cumulative then E.cumulativeByDate[i]?.getD [] else E.dailyByDate[i]?.getD []

/-- The function `updateGuiDateControllerValue`. -/
def updateGuiDateControllerValue (E : Engine) (idx : Int) : Engine :=
  { E with
    settings :=
      { E.settings with
        dateIndex := idx
        dateLabel := if 0 < E.dates.length then some (E.dates[idx.toNat]?.getD none) else none } }

/-- The function `updateForDate`, including its calls of `computeCountryStats`,
`updateTopCountries` and `updateGuiDateControllerValue`. -/
def updateForDate (E : Engine) (index : Int) : Engine :=
  if E.dates.length = 0 then E
  else
    let currentDateIndex : Int := max 0 (min index ((E.dates.length : Int) - 1))
    let values := valuesOf E.instancedCount E.locKeyToIndex (mapForDate E currentDateIndex.toNat)
    let stats := computeCountryStats E.locations values
    updateGuiDateControllerValue
      { E with
        currentDateIndex := currentDateIndex
        settings := { E.settings with dateIndex := currentDateIndex }
        values := values
        topPanel := updateTopCountries E.settings.topN stats }
      currentDateIndex

/-- The interval callback installed by `startPlay`. -/
def tick (E : Engine) : Engine :=
  let i := E.currentDateIndex + 1
  let i := if (E.dates.length : Int) ≤ i then 0 else i
  updateForDate { E with currentDateIndex := i } i

/-- The function `startPlay`. -/
def startPlay (E : Engine) : Engine :=
  if E.playInterval.isSome then E
  else
    { E with
      settings := { E.settings with playing := true }
      playInterval := some E.settings.speedMs }

/-- The function `stopPlay`. -/
def stopPlay (E : Engine) : Engine :=
  { E with settings := { E.settings with playing := false }, playInterval := none }

/-- The module state once `loadCSV` has finished on the records `records`:
initial settings, then `currentDateIndex = 0`, `updateForDate(currentDateIndex)`,
`updateTopCountriesFromCurrent()` and `updateGuiDateControllerValue(0)`. -/
def engineOf (records : List Record) : Engine :=
  let ds := ingest records
  let E₀ : Engine :=
    { dates := ds.dates
      cumulativeByDate := ds.cumulativeByDate
      dailyByDate := ds.dailyByDate
      locKeyToIndex := ds.locKeyToIndex
      locations := ds.locations
      instancedCount := ds.locations.length
      currentDateIndex := 0
      playInterval := none
      settings := ⟨0, false, 400, false, 10, none⟩
      values := []
      topPanel := [] }
  let E₁ := updateForDate E₀ E₀.currentDateIndex
  let E₂ := updateForDate E₁ E₁.currentDateIndex
  updateGuiDateControllerValue E₂ 0

/-- The location indices whose country label is `c` and whose value is
positive. -/
def positiveIndices (locations : List Location) (vals : List Int) (c : String) : List Nat :=
  (List.range locations.length).filter
    (fun i => decide ((locations[i]?.map Location.label) = some c ∧ 0 < vals.getD i 0))

/-- The total of country label `c`: the sum of the positive values of the
locations labelled `c`. -/
def countryTotal (locations : List Location) (vals : List Int) (c : String) : Int :=
  ((positiveIndices locations vals c).map (fun i => vals.getD i 0)).sum

/-- The total that the stored country name `c` would have if locations were
grouped by their stored `country` field: the sum of the positive values of the
locations whose stored country is `c`. -/
def storedCountryTotal (locations : List Location) (vals : List Int) (c : String) : Int :=
  (((List.range locations.length).filter
    (fun i => decide ((locations[i]?.map (fun l => l.country)) = some c ∧ 0 < vals.getD i 0))).map
      (fun i => vals.getD i 0)).sum

/-- The country labels that have a positive total. -/
def positiveCountries (locations : List Location) (vals : List Int) : Finset String :=
  (locations.map Location.label).toFinset.filter (fun c => 0 < countryTotal locations vals c)

/-- Three sample locations: one without a country, one whose country is the
string `"Unknown"`, one in Peru. -/
def sampleLocations : List Location :=
  [⟨.fin 0 0, .fin 0 0, ""⟩, ⟨.fin 1 0, .fin 0 0, "Unknown"⟩, ⟨.fin 2 0, .fin 0 0, "Peru"⟩]

/-- Sample values for `sampleLocations`. -/
def sampleValues : List Int := [5, 6, 0]

/-! ## Lemmas on `JSMap` -/

namespace JSMap

variable {κ ν : Type} [DecidableEq κ]

theorem get?_set_self (m : JSMap κ ν) (k : κ) (v : ν) : get? (set m k v) k = some v := by
  induction m with
  | nil => simp [set, get?]
  | cons e t ih =>
    obtain ⟨k', v'⟩ := e
    by_cases h : k' = k
    · simp [set, get?, h]
    · simp [set, get?, h, ih]

theorem get?_set_ne (m : JSMap κ ν) (k k' : κ) (v : ν) (h : k' ≠ k) :
    get? (set m k v) k' = get? m k' := by
  induction m with
  | nil => simp [set, get?, Ne.symm h]
  | cons e t ih =>
    obtain ⟨k₀, v₀⟩ := e
    by_cases h0 : k₀ = k
    · subst h0
      simp [set, get?, Ne.symm h]
    · by_cases h1 : k₀ = k'
      · subst h1
        simp [set, get?, h0]
      · simp [set, get?, h0, h1, ih]

theorem get?_set (m : JSMap κ ν) (k k' : κ) (v : ν) :
    get? (set m k v) k' = if k' = k then some v else get? m k' := by
  by_cases h : k' = k
  · subst h; simp [get?_set_self]
  · simp [h, get?_set_ne m k k' v h]

end JSMap

theorem cumScan_eq (raw : List (JSMap String Int)) (key : String) (d : Nat) :
    cumScan raw key d = (rawAt raw key d).getD (prevScan raw key d) := by
  cases d <;> simp [cumScan, prevScan]

theorem option_none_or_some {α : Type} (o : Option α) : o = none ∨ ∃ v, o = some v := by
  cases o <;> simp

theorem dateStep_snd (raw : List (JSMap String Int)) (key : String) (M : Matrices) (d : Nat) :
    (dateStep raw key (M, prevScan raw key d) d).2 = cumScan raw key d := by
  rw [cumScan_eq]
  simp only [dateStep, rawAt, JSMap.has]
  rcases option_none_or_some (JSMap.get? (raw[d]?.getD []) key) with h | ⟨v, h⟩ <;> simp [h]

theorem dateStep_cum_length (raw : List (JSMap String Int)) (key : String)
    (st : Matrices × Int) (d : Nat) :
    (dateStep raw key st d).1.cumulativeByDate.length = st.1.cumulativeByDate.length := by
  simp [dateStep]

theorem dateStep_daily_length (raw : List (JSMap String Int)) (key : String)
    (st : Matrices × Int) (d : Nat) :
    (dateStep raw key st d).1.dailyByDate.length = st.1.dailyByDate.length := by
  simp [dateStep]

theorem dateStep_cumulativeAt (raw : List (JSMap String Int)) (key : String) (M : Matrices)
    (d : Nat) (hd : d < M.cumulativeByDate.length) (k' : String) (d' : Nat) :
    cumulativeAt (dateStep raw key (M, prevScan raw key d) d).1 k' d' =
      if d' = d ∧ k' = key then some (cumScan raw key d) else cumulativeAt M k' d' := by
  have hc : (match (if JSMap.has (raw[d]?.getD []) key then JSMap.get? (raw[d]?.getD []) key
        else none : Option Int) with
      | none => prevScan raw key d
      | some v => v) = cumScan raw key d := by
    rw [cumScan_eq]
    simp only [rawAt, JSMap.has]
    rcases option_none_or_some (JSMap.get? (raw[d]?.getD []) key) with h | ⟨v, h⟩ <;> simp [h]
  simp only [dateStep, cumulativeAt, hc]
  by_cases h1 : d' = d
  · subst h1
    simp [List.getElem?_set, hd, JSMap.get?_set]
  · have h1' : ¬ d = d' := fun h => h1 h.symm
    simp [List.getElem?_set, h1, h1']

theorem dateStep_dailyAt (raw : List (JSMap String Int)) (key : String) (M : Matrices)
    (d : Nat) (hd : d < M.dailyByDate.length) (k' : String) (d' : Nat) :
    dailyAt (dateStep raw key (M, prevScan raw key d) d).1 k' d' =
      if d' = d ∧ k' = key then some (dailyScan raw key d) else dailyAt M k' d' := by
  have hc : (match (if JSMap.has (raw[d]?.getD []) key then JSMap.get? (raw[d]?.getD []) key
        else none : Option Int) with
      | none => prevScan raw key d
      | some v => v) = cumScan raw key d := by
    rw [cumScan_eq]
    simp only [rawAt, JSMap.has]
    rcases option_none_or_some (JSMap.get? (raw[d]?.getD []) key) with h | ⟨v, h⟩ <;> simp [h]
  have hm : (if JS.roundDouble (cumScan raw key d - prevScan raw key d) < 0 then 0
      else JS.roundDouble (cumScan raw key d - prevScan raw key d)) = dailyScan raw key d := by
    unfold dailyScan
    split_ifs with h
    · rw [max_eq_left (le_of_lt h)]
    · rw [max_eq_right (not_lt.mp h)]
  simp only [dateStep, dailyAt, hc, hm]
  by_cases h1 : d' = d
  · subst h1
    simp [List.getElem?_set, hd, JSMap.get?_set]
  · have h1' : ¬ d = d' := fun h => h1 h.symm
    simp [List.getElem?_set, h1, h1']

theorem innerLoop_spec (raw : List (JSMap String Int)) (key : String) (M : Matrices) (n : Nat)
    (hc : M.cumulativeByDate.length = n) (hd : M.dailyByDate.length = n) :
    ∀ j, j ≤ n →
      ((List.range j).foldl (dateStep raw key) (M, 0)).2 = prevScan raw key j ∧
      ((List.range j).foldl (dateStep raw key) (M, 0)).1.cumulativeByDate.length = n ∧
      ((List.range j).foldl (dateStep raw key) (M, 0)).1.dailyByDate.length = n ∧
      (∀ k' d', cumulativeAt ((List.range j).foldl (dateStep raw key) (M, 0)).1 k' d' =
        if d' < j ∧ k' = key then some (cumScan raw key d') else cumulativeAt M k' d') ∧
      (∀ k' d', dailyAt ((List.range j).foldl (dateStep raw key) (M, 0)).1 k' d' =
        if d' < j ∧ k' = key then some (dailyScan raw key d') else dailyAt M k' d') := by
  intro j
  induction j with
  | zero =>
    intro _
    simp [prevScan, hc, hd]
  | succ j ih =>
    intro hj
    obtain ⟨h2, hcl, hdl, hcum, hday⟩ := ih (Nat.le_of_succ_le hj)
    rw [List.range_succ, List.foldl_append]
    simp only [List.foldl_cons, List.foldl_nil]
    generalize (List.range j).foldl (dateStep raw key) (M, 0) = st at h2 hcl hdl hcum hday
    obtain ⟨M', p⟩ := st
    simp only at h2 hcl hdl hcum hday
    subst h2
    have hjc : j < M'.cumulativeByDate.length := by omega
    have hjd : j < M'.dailyByDate.length := by omega
    refine ⟨?_, ?_, ?_, ?_, ?_⟩
    · rw [dateStep_snd]; rfl
    · rw [dateStep_cum_length]; exact hcl
    · rw [dateStep_daily_length]; exact hdl
    · intro k' d'
      rw [dateStep_cumulativeAt raw key M' j hjc, hcum]
      by_cases h1 : d' = j
      · subst h1
        by_cases h2 : k' = key <;> simp [h2]
      · have : d' < j + 1 ↔ d' < j := by omega
        simp [h1, this]
    · intro k' d'
      rw [dateStep_dailyAt raw key M' j hjd, hday]
      by_cases h1 : d' = j
      · subst h1
        by_cases h2 : k' = key <;> simp [h2]
      · have : d' < j + 1 ↔ d' < j := by omega
        simp [h1, this]

theorem keyStep_spec (raw : List (JSMap String Int)) (key : String) (M : Matrices) (n : Nat)
    (hc : M.cumulativeByDate.length = n) (hd : M.dailyByDate.length = n) :
    (keyStep n raw M key).cumulativeByDate.length = n ∧
    (keyStep n raw M key).dailyByDate.length = n ∧
    (∀ k' d', cumulativeAt (keyStep n raw M key) k' d' =
      if d' < n ∧ k' = key then some (cumScan raw key d') else cumulativeAt M k' d') ∧
    (∀ k' d', dailyAt (keyStep n raw M key) k' d' =
      if d' < n ∧ k' = key then some (dailyScan raw key d') else dailyAt M k' d') := by
  obtain ⟨_, h2, h3, h4, h5⟩ := innerLoop_spec raw key M n hc hd n le_rfl
  exact ⟨h2, h3, h4, h5⟩

theorem outerLoop_spec (raw : List (JSMap String Int)) (n : Nat) (ks : List String) :
    ∀ M : Matrices, M.cumulativeByDate.length = n → M.dailyByDate.length = n →
      (∀ k d, cumulativeAt (ks.foldl (keyStep n raw) M) k d =
        if d < n ∧ k ∈ ks then some (cumScan raw k d) else cumulativeAt M k d) ∧
      (∀ k d, dailyAt (ks.foldl (keyStep n raw) M) k d =
        if d < n ∧ k ∈ ks then some (dailyScan raw k d) else dailyAt M k d) := by
  induction ks with
  | nil => intro M _ _; simp
  | cons key ks ih =>
    intro M hc hd
    obtain ⟨h1, h2, h3, h4⟩ := keyStep_spec raw key M n hc hd
    obtain ⟨i1, i2⟩ := ih (keyStep n raw M key) h1 h2
    simp only [List.foldl_cons]
    constructor
    · intro k d
      rw [i1, h3]
      by_cases hd' : d < n <;> by_cases hk : k ∈ ks <;> by_cases hk' : k = key <;>
        simp [hd', hk, hk']
    · intro k d
      rw [i2, h4]
      by_cases hd' : d < n <;> by_cases hk : k ∈ ks <;> by_cases hk' : k = key <;>
        simp [hd', hk, hk']

theorem build_cumulativeAt {τ : Type} (dates : List τ) (raw : List (JSMap String Int))
    (locKeyToIndex : JSMap String Nat) (k : String) (d : Nat) :
    cumulativeAt (buildCumulativeAndDaily dates raw locKeyToIndex) k d =
      if d < dates.length ∧ k ∈ JSMap.keys locKeyToIndex then some (cumScan raw k d) else none := by
  unfold buildCumulativeAndDaily
  rw [(outerLoop_spec raw dates.length (JSMap.keys locKeyToIndex) _ (by simp) (by simp)).1]
  split_ifs
  · rfl
  · simp only [cumulativeAt]
    by_cases h : d < dates.length <;> simp [h, JSMap.get?]

theorem build_dailyAt {τ : Type} (dates : List τ) (raw : List (JSMap String Int))
    (locKeyToIndex : JSMap String Nat) (k : String) (d : Nat) :
    dailyAt (buildCumulativeAndDaily dates raw locKeyToIndex) k d =
      if d < dates.length ∧ k ∈ JSMap.keys locKeyToIndex then some (dailyScan raw k d) else none := by
  unfold buildCumulativeAndDaily
  rw [(outerLoop_spec raw dates.length (JSMap.keys locKeyToIndex) _ (by simp) (by simp)).2]
  split_ifs
  · rfl
  · simp only [dailyAt]
    by_cases h : d < dates.length <;> simp [h, JSMap.get?]

theorem roundDouble_of_natAbs_le (x : Int) (h : x.natAbs ≤ 2 ^ 53) : JS.roundDouble x = x := by
  unfold JS.roundDouble JS.roundToBits
  rw [if_pos h]

theorem fround_of_natAbs_le (x : Int) (h : x.natAbs ≤ 2 ^ 24) : JS.fround x = x := by
  unfold JS.fround JS.roundToBits
  rw [if_pos h]

theorem scan_sum_ge (raw : List (JSMap String Int)) (key : String) (n : Nat)
    (hexact : ∀ d, d < n →
      JS.roundDouble (cumScan raw key d - prevScan raw key d) =
        cumScan raw key d - prevScan raw key d) :
    prevScan raw key n ≤ ((List.range n).map (dailyScan raw key)).sum ∧
    (((List.range n).map (dailyScan raw key)).sum = prevScan raw key n ↔
      ∀ d, d < n → prevScan raw key d ≤ cumScan raw key d) := by
  induction n with
  | zero => simp [prevScan]
  | succ n ih =>
    obtain ⟨h1, h2⟩ := ih (fun d hd => hexact d (Nat.lt_succ_of_lt hd))
    have hex := hexact n (Nat.lt_succ_self n)
    rw [List.range_succ, List.map_append, List.sum_append]
    simp only [List.map_cons, List.map_nil, List.sum_cons, List.sum_nil, add_zero]
    have hp : prevScan raw key (n + 1) = cumScan raw key n := rfl
    rw [hp]
    have hdaily : dailyScan raw key n = max 0 (cumScan raw key n - prevScan raw key n) := by
      unfold dailyScan
      rw [hex]
    have hmax : cumScan raw key n - prevScan raw key n ≤ dailyScan raw key n := by
      rw [hdaily]; exact le_max_right _ _
    have hnn : 0 ≤ dailyScan raw key n := by
      rw [hdaily]; exact le_max_left _ _
    constructor
    · omega
    · constructor
      · intro hs d hd
        have e1 : ((List.range n).map (dailyScan raw key)).sum = prevScan raw key n := by omega
        have e2 : dailyScan raw key n = cumScan raw key n - prevScan raw key n := by omega
        rcases Nat.lt_succ_iff_lt_or_eq.mp hd with hlt | heq
        · exact h2.mp e1 d hlt
        · subst heq
          omega
      · intro hall
        have e1 : ((List.range n).map (dailyScan raw key)).sum = prevScan raw key n :=
          h2.mpr (fun d hd => hall d (Nat.lt_succ_of_lt hd))
        have e3 : prevScan raw key n ≤ cumScan raw key n := hall n (Nat.lt_succ_self n)
        have e2 : dailyScan raw key n = cumScan raw key n - prevScan raw key n := by
          rw [hdaily]
          exact max_eq_right (by omega)
        omega

theorem build_cumulativeVal {τ : Type} (dates : List τ) (raw : List (JSMap String Int))
    (locKeyToIndex : JSMap String Nat) (k : String) (hk : k ∈ JSMap.keys locKeyToIndex)
    (d : Nat) (hd : d < dates.length) :
    cumulativeVal (buildCumulativeAndDaily dates raw locKeyToIndex) k d = cumScan raw k d := by
  simp [cumulativeVal, build_cumulativeAt, hk, hd]

theorem build_prevCumulativeVal {τ : Type} (dates : List τ) (raw : List (JSMap String Int))
    (locKeyToIndex : JSMap String Nat) (k : String) (hk : k ∈ JSMap.keys locKeyToIndex)
    (d : Nat) (hd : d < dates.length) :
    prevCumulativeVal (buildCumulativeAndDaily dates raw locKeyToIndex) k d =
      prevScan raw k d := by
  cases d with
  | zero => simp [prevCumulativeVal, prevScan]
  | succ d =>
    have hd' : d < dates.length := by omega
    simp [prevCumulativeVal, prevScan, build_cumulativeVal dates raw locKeyToIndex k hk d hd']

theorem build_dailySum {τ : Type} (dates : List τ) (raw : List (JSMap String Int))
    (locKeyToIndex : JSMap String Nat) (k : String) (hk : k ∈ JSMap.keys locKeyToIndex) :
    dailySum (buildCumulativeAndDaily dates raw locKeyToIndex) k dates.length =
      ((List.range dates.length).map (dailyScan raw k)).sum := by
  unfold dailySum
  congr 1
  apply List.map_congr_left
  intro d hd
  have hd' : d < dates.length := List.mem_range.mp hd
  simp [dailyVal, build_dailyAt, hk, hd']

/-! ## Lemmas on `dates` and `dateIndexMap` -/

theorem setOfArray_aux {α : Type} [DecidableEq α] (xs : List α) :
    ∀ s : List α, s.Nodup →
      (xs.foldl (fun s x => if x ∈ s then s else s ++ [x]) s).Nodup ∧
      ∀ a, a ∈ xs.foldl (fun s x => if x ∈ s then s else s ++ [x]) s ↔ a ∈ s ∨ a ∈ xs := by
  induction xs with
  | nil => intro s hs; simp [hs]
  | cons x xs ih =>
    intro s hs
    simp only [List.foldl_cons]
    by_cases hx : x ∈ s
    · simp only [hx, if_true]
      obtain ⟨h1, h2⟩ := ih s hs
      refine ⟨h1, fun a => ?_⟩
      rw [h2, List.mem_cons]
      constructor
      · rintro (h | h)
        · exact Or.inl h
        · exact Or.inr (Or.inr h)
      · rintro (h | h | h)
        · exact Or.inl h
        · exact Or.inl (h ▸ hx)
        · exact Or.inr h
    · simp only [hx, if_false]
      have hs' : (s ++ [x]).Nodup := by
        rw [List.nodup_append]
        refine ⟨hs, List.nodup_singleton x, ?_⟩
        intro a ha hb
        rw [List.mem_singleton] at hb
        exact hx (hb ▸ ha)
      obtain ⟨h1, h2⟩ := ih (s ++ [x]) hs'
      refine ⟨h1, fun a => ?_⟩
      rw [h2, List.mem_append, List.mem_singleton, List.mem_cons]
      tauto

theorem setOfArray_nodup {α : Type} [DecidableEq α] (xs : List α) : (setOfArray xs).Nodup :=
  (setOfArray_aux xs [] List.nodup_nil).1

theorem mem_setOfArray {α : Type} [DecidableEq α] (xs : List α) (a : α) :
    a ∈ setOfArray xs ↔ a ∈ xs := by
  have := (setOfArray_aux xs [] List.nodup_nil).2 a
  simpa [setOfArray] using this

theorem buildDates_nodup (records : List Record) : (buildDates records).Nodup :=
  (List.perm_insertionSort dateLe _).nodup_iff.mpr (setOfArray_nodup _)

theorem mem_buildDates (records : List Record) (ts : TimeValue) :
    ts ∈ buildDates records ↔ ∃ r ∈ records, r.dateTs = ts := by
  unfold buildDates
  rw [(List.perm_insertionSort dateLe _).mem_iff, mem_setOfArray, List.mem_map]

theorem buildDateIndexMap_get? (dates : List TimeValue) (hnd : dates.Nodup)
    (ts : TimeValue) (i : Nat) :
    JSMap.get? (buildDateIndexMap dates) ts = some i ↔ dates[i]? = some ts := by
  unfold buildDateIndexMap
  induction dates using List.reverseRecOn generalizing i with
  | nil => simp [JSMap.get?]
  | append_singleton ds d ih =>
    rw [List.nodup_append] at hnd
    obtain ⟨hds, _, hdisj⟩ := hnd
    have hd : d ∉ ds := fun h => hdisj h (List.mem_singleton_self d)
    rw [List.enum_append, List.foldl_append]
    simp only [List.enumFrom_singleton, List.enumFrom_nil, List.foldl_cons, List.foldl_nil,
      zero_add]
    rw [JSMap.get?_set]
    by_cases hts : ts = d
    · subst hts
      simp only [if_true, Option.some.injEq]
      constructor
      · intro h
        subst h
        simp
      · intro h
        rcases Nat.lt_trichotomy i ds.length with hlt | heq | hgt
        · rw [List.getElem?_append_left hlt] at h
          exact absurd (List.getElem?_mem h) hd
        · exact heq.symm
        · have hlen : (ds ++ [ts]).length ≤ i := by
            rw [List.length_append, List.length_singleton]; omega
          rw [List.getElem?_eq_none hlen] at h
          exact absurd h (by simp)
    · simp only [hts, if_false]
      rw [ih hds]
      rcases Nat.lt_trichotomy i ds.length with hlt | heq | hgt
      · rw [List.getElem?_append_left hlt]
      · subst heq
        simp [Ne.symm hts]
      · have hlen : (ds ++ [d]).length ≤ i := by
          rw [List.length_append, List.length_singleton]; omega
        rw [List.getElem?_eq_none hlen, List.getElem?_eq_none (Nat.le_of_lt hgt)]

theorem buildDateIndexMap_lt (dates : List TimeValue) (hnd : dates.Nodup)
    (ts : TimeValue) (i : Nat) (h : JSMap.get? (buildDateIndexMap dates) ts = some i) :
    i < dates.length := by
  rw [buildDateIndexMap_get? dates hnd] at h
  by_contra hge
  rw [List.getElem?_eq_none (by omega)] at h
  exact absurd h (by simp)

theorem buildDateIndexMap_isSome (dates : List TimeValue) (hnd : dates.Nodup)
    (ts : TimeValue) (h : ts ∈ dates) :
    ∃ i, JSMap.get? (buildDateIndexMap dates) ts = some i := by
  obtain ⟨i, hi, hget⟩ := List.getElem_of_mem h
  refine ⟨i, (buildDateIndexMap_get? dates hnd ts i).mpr ?_⟩
  rw [List.getElem?_eq_getElem hi, hget]

/-! ## Lemmas on the record loop: raw values -/

theorem recordStep_raw (dim : JSMap TimeValue Nat) (st : LoadState) (r : Record) :
    (recordStep dim st r).rawValuesByDate =
      st.rawValuesByDate.set ((JSMap.get? dim r.dateTs).getD 0)
        (JSMap.set (st.rawValuesByDate[(JSMap.get? dim r.dateTs).getD 0]?.getD [])
          (locKey r.lat r.lon)
          ((JSMap.get? (st.rawValuesByDate[(JSMap.get? dim r.dateTs).getD 0]?.getD [])
            (locKey r.lat r.lon)).getD 0 + r.confirmed)) := by
  unfold recordStep
  simp only
  split <;> rfl

theorem recordStep_raw_length (dim : JSMap TimeValue Nat) (st : LoadState) (r : Record) :
    (recordStep dim st r).rawValuesByDate.length = st.rawValuesByDate.length := by
  rw [recordStep_raw, List.length_set]

theorem recordStep_rawAt (dim : JSMap TimeValue Nat) (st : LoadState) (r : Record)
    (di : Nat) (hdi : JSMap.get? dim r.dateTs = some di) (hlt : di < st.rawValuesByDate.length)
    (key : String) (d : Nat) :
    rawAt (recordStep dim st r).rawValuesByDate key d =
      if d = di ∧ key = locKey r.lat r.lon then
        some ((rawAt st.rawValuesByDate key d).getD 0 + r.confirmed)
      else rawAt st.rawValuesByDate key d := by
  rw [recordStep_raw, hdi]
  simp only [Option.getD_some, rawAt]
  by_cases h1 : d = di
  · subst h1
    simp only [List.getElem?_set, hlt, if_true, Option.getD_some, JSMap.get?_set, true_and]
    by_cases h2 : key = locKey r.lat r.lon
    · subst h2; simp
    · simp [h2]
  · have h1' : ¬ di = d := fun h => h1 h.symm
    simp [List.getElem?_set, h1, h1']

theorem recordLoop_rawAt (dates : List TimeValue) (hnd : dates.Nodup) (rs : List Record) :
    (∀ r ∈ rs, r.dateTs ∈ dates) →
    ∀ st : LoadState, st.rawValuesByDate.length = dates.length →
    ∀ (key : String) (d : Nat), d < dates.length →
      rawAt (rs.foldl (recordStep (buildDateIndexMap dates)) st).rawValuesByDate key d =
        if recordsFor rs dates key d = [] then rawAt st.rawValuesByDate key d
        else some ((rawAt st.rawValuesByDate key d).getD 0 +
          ((recordsFor rs dates key d).map (fun r => r.confirmed)).sum) := by
  induction rs with
  | nil => intro _ st _ key d _; simp [recordsFor]
  | cons r rs ih =>
    intro hmem st hlen key d hd
    obtain ⟨di, hdi⟩ := buildDateIndexMap_isSome dates hnd r.dateTs
      (hmem r (List.mem_cons_self r rs))
    have hdilt : di < dates.length := buildDateIndexMap_lt dates hnd _ _ hdi
    have hdates : dates[di]? = some r.dateTs := (buildDateIndexMap_get? dates hnd _ _).mp hdi
    have hcond : d = di ↔ dates[d]? = some r.dateTs := by
      constructor
      · intro h; rw [h]; exact hdates
      · intro h
        have := (buildDateIndexMap_get? dates hnd _ _).mpr h
        rw [hdi] at this
        exact (Option.some.inj this).symm
    simp only [List.foldl_cons]
    rw [ih (fun r' hr' => hmem r' (List.mem_cons_of_mem r hr')) _
      (by rw [recordStep_raw_length]; exact hlen) key d hd]
    rw [recordStep_rawAt _ st r di hdi (by omega)]
    by_cases hm : key = locKey r.lat r.lon ∧ dates[d]? = some r.dateTs
    · have hm' : d = di ∧ key = locKey r.lat r.lon := ⟨hcond.mpr hm.2, hm.1⟩
      have hf : recordsFor (r :: rs) dates key d = r :: recordsFor rs dates key d := by
        simp [recordsFor, List.filter_cons, hm.1.symm, hm.2]
      rw [hf, if_pos hm', if_neg (List.cons_ne_nil _ _)]
      by_cases h : recordsFor rs dates key d = []
      · rw [if_pos h, h]
        simp
      · rw [if_neg h]
        simp [add_assoc]
    · have hm' : ¬ (d = di ∧ key = locKey r.lat r.lon) := fun h => hm ⟨h.2, hcond.mp h.1⟩
      have hf : recordsFor (r :: rs) dates key d = recordsFor rs dates key d := by
        have : ¬ (locKey r.lat r.lon = key ∧ dates[d]? = some r.dateTs) :=
          fun h => hm ⟨h.1.symm, h.2⟩
        simp [recordsFor, List.filter_cons, this]
      rw [hf, if_neg hm']

theorem loadRecords_raw_length (records : List Record) :
    (loadRecords records).rawValuesByDate.length = (buildDates records).length := by
  unfold loadRecords
  simp only
  generalize buildDateIndexMap (buildDates records) = dim
  have : ∀ (rs : List Record) (st : LoadState),
      (rs.foldl (recordStep dim) st).rawValuesByDate.length = st.rawValuesByDate.length := by
    intro rs
    induction rs with
    | nil => intro st; rfl
    | cons r rs ih => intro st; rw [List.foldl_cons, ih, recordStep_raw_length]
  rw [this]
  simp

/-! ## Lemmas on the record loop: the location registry -/

namespace JSMap

variable {κ ν : Type} [DecidableEq κ]

theorem has_iff_mem_keys (m : JSMap κ ν) (k : κ) : has m k = true ↔ k ∈ keys m := by
  induction m with
  | nil => simp [has, get?, keys]
  | cons e t ih =>
    obtain ⟨k', v'⟩ := e
    by_cases h : k' = k
    · simp [has, get?, keys, h]
    · have h' : ¬ k = k' := fun e => h e.symm
      simp only [has, get?, keys, h, if_false, List.map_cons, List.mem_cons, h', false_or]
      exact ih

theorem has_set (m : JSMap κ ν) (k k' : κ) (v : ν) :
    has (set m k v) k' = true ↔ k' = k ∨ has m k' = true := by
  unfold has
  rw [get?_set]
  by_cases h : k' = k <;> simp [h]

theorem length_set_of_not_has (m : JSMap κ ν) (k : κ) (v : ν) (h : ¬ has m k = true) :
    (set m k v).length = m.length + 1 := by
  induction m with
  | nil => simp [set]
  | cons e t ih =>
    obtain ⟨k', v'⟩ := e
    by_cases hk : k' = k
    · exact absurd (by simp [has, get?, hk]) h
    · have ht : ¬ has t k = true := by
        intro ht
        apply h
        simpa [has, get?, hk] using ht
      simp [set, hk, ih ht]

theorem get?_isSome_of_has (m : JSMap κ ν) (k : κ) (h : has m k = true) :
    ∃ v, get? m k = some v :=
  Option.isSome_iff_exists.mp h

end JSMap

theorem recordStep_registry_of_has (dim : JSMap TimeValue Nat) (st : LoadState) (r : Record)
    (h : JSMap.has st.locKeyToIndex r.key = true) :
    (recordStep dim st r).locKeyToIndex = st.locKeyToIndex ∧
    (recordStep dim st r).locations = st.locations := by
  unfold Record.key at h
  simp [recordStep, h]

theorem recordStep_registry_of_not_has (dim : JSMap TimeValue Nat) (st : LoadState) (r : Record)
    (h : ¬ JSMap.has st.locKeyToIndex r.key = true) :
    (recordStep dim st r).locKeyToIndex =
      JSMap.set st.locKeyToIndex r.key st.locations.length ∧
    (recordStep dim st r).locations = st.locations ++ [⟨r.lat, r.lon, r.country⟩] := by
  unfold Record.key at h
  simp [recordStep, h, Record.key]

theorem registry_inv (dim : JSMap TimeValue Nat) (raw₀ : List (JSMap String Int))
    (rs : List Record) :
    (rs.foldl (recordStep dim) ⟨raw₀, [], []⟩).locations.length =
      (rs.foldl (recordStep dim) ⟨raw₀, [], []⟩).locKeyToIndex.length ∧
    (∀ k, JSMap.has (rs.foldl (recordStep dim) ⟨raw₀, [], []⟩).locKeyToIndex k = true ↔
      k ∈ rs.map Record.key) ∧
    (rs.foldl (recordStep dim) ⟨raw₀, [], []⟩).locKeyToIndex.length =
      (rs.map Record.key).toFinset.card ∧
    (∀ (j : Nat) (r : Record), rs[j]? = some r → r.key ∉ (rs.take j).map Record.key →
      JSMap.get? (rs.foldl (recordStep dim) ⟨raw₀, [], []⟩).locKeyToIndex r.key =
        some ((rs.take j).map Record.key).toFinset.card ∧
      (rs.foldl (recordStep dim) ⟨raw₀, [], []⟩).locations[
          ((rs.take j).map Record.key).toFinset.card]? =
        some ⟨r.lat, r.lon, r.country⟩) := by
  induction rs using List.reverseRecOn with
  | nil => simp [JSMap.has, JSMap.get?]
  | append_singleton rs r' ih =>
    obtain ⟨ha, hb, hc, hd⟩ := ih
    rw [List.foldl_append]
    simp only [List.foldl_cons, List.foldl_nil]
    generalize rs.foldl (recordStep dim) ⟨raw₀, [], []⟩ = st at ha hb hc hd
    have hmap : (rs ++ [r']).map Record.key = rs.map Record.key ++ [r'.key] := by simp
    have hold : ∀ (j : Nat) (r : Record), (rs ++ [r'])[j]? = some r → j < rs.length →
        rs[j]? = some r ∧ (rs ++ [r']).take j = rs.take j := by
      intro j r hj hlt
      rw [List.getElem?_append_left hlt] at hj
      exact ⟨hj, List.take_append_of_le_length (Nat.le_of_lt hlt)⟩
    have hnew : ∀ (j : Nat) (r : Record), (rs ++ [r'])[j]? = some r → ¬ j < rs.length →
        r = r' ∧ (rs ++ [r']).take j = rs := by
      intro j r hj hlt
      have hjl : j < (rs ++ [r']).length := by
        by_contra hge
        rw [List.getElem?_eq_none (Nat.le_of_not_lt hge)] at hj
        exact absurd hj (by simp)
      have hje : j = rs.length := by
        rw [List.length_append, List.length_singleton] at hjl; omega
      subst hje
      rw [List.getElem?_append_right (Nat.le_refl _)] at hj
      simp only [Nat.sub_self, List.getElem?_cons_zero, Option.some.injEq] at hj
      refine ⟨hj.symm, ?_⟩
      rw [List.take_append_of_le_length (Nat.le_refl _), List.take_length]
    by_cases hhas : JSMap.has st.locKeyToIndex r'.key = true
    · obtain ⟨e1, e2⟩ := recordStep_registry_of_has dim st r' hhas
      have hin : r'.key ∈ rs.map Record.key := (hb _).mp hhas
      rw [e1, e2, hmap]
      refine ⟨ha, ?_, ?_, ?_⟩
      · intro k
        rw [hb, List.mem_append, List.mem_singleton]
        constructor
        · exact Or.inl
        · rintro (h | h)
          · exact h
          · exact h ▸ hin
      · rw [hc]
        congr 1
        ext a
        simp only [List.mem_toFinset, List.mem_append, List.mem_singleton]
        constructor
        · exact Or.inl
        · rintro (h | h)
          · exact h
          · exact h ▸ hin
      · intro j r hj hfirst
        by_cases hlt : j < rs.length
        · obtain ⟨h1, h2⟩ := hold j r hj hlt
          rw [h2] at hfirst ⊢
          exact hd j r h1 hfirst
        · obtain ⟨h1, h2⟩ := hnew j r hj hlt
          rw [h2, h1] at hfirst
          exact absurd hin hfirst
    · obtain ⟨e1, e2⟩ := recordStep_registry_of_not_has dim st r' hhas
      have hnin : r'.key ∉ rs.map Record.key := fun h => hhas ((hb _).mpr h)
      have hcard : (rs.map Record.key ++ [r'.key]).toFinset.card =
          (rs.map Record.key).toFinset.card + 1 := by
        have hset : (rs.map Record.key ++ [r'.key]).toFinset =
            insert r'.key (rs.map Record.key).toFinset := by
          ext a
          simp only [List.mem_toFinset, List.mem_append, List.mem_singleton, Finset.mem_insert]
          tauto
        rw [hset, Finset.card_insert_of_not_mem]
        rw [List.mem_toFinset]
        exact hnin
      rw [e1, e2, hmap]
      refine ⟨?_, ?_, ?_, ?_⟩
      · rw [JSMap.length_set_of_not_has _ _ _ hhas, List.length_append, List.length_singleton, ha]
      · intro k
        rw [JSMap.has_set, hb, List.mem_append, List.mem_singleton]
        tauto
      · rw [JSMap.length_set_of_not_has _ _ _ hhas, hc, hcard]
      · intro j r hj hfirst
        by_cases hlt : j < rs.length
        · obtain ⟨h1, h2⟩ := hold j r hj hlt
          rw [h2] at hfirst ⊢
          obtain ⟨g1, g2⟩ := hd j r h1 hfirst
          have hne : r.key ≠ r'.key := by
            intro heq
            apply hnin
            rw [← heq]
            exact List.mem_map_of_mem _ (List.getElem?_mem h1)
          refine ⟨by rw [JSMap.get?_set_ne _ _ _ _ hne, g1], ?_⟩
          have hidx : ((rs.take j).map Record.key).toFinset.card < st.locations.length := by
            by_contra hge
            rw [List.getElem?_eq_none (Nat.le_of_not_lt hge)] at g2
            exact absurd g2 (by simp)
          rw [List.getElem?_append_left hidx, g2]
        · obtain ⟨h1, h2⟩ := hnew j r hj hlt
          rw [h2, h1]
          refine ⟨by rw [JSMap.get?_set_self, ha, hc], ?_⟩
          rw [← hc, ← ha, List.getElem?_append_right (Nat.le_refl _)]
          simp

theorem JSMap.set_of_not_has {κ ν : Type} [DecidableEq κ] (m : JSMap κ ν) (k : κ) (v : ν)
    (h : ¬ JSMap.has m k = true) : JSMap.set m k v = m ++ [(k, v)] := by
  induction m with
  | nil => simp [JSMap.set]
  | cons e t ih =>
    obtain ⟨k', v'⟩ := e
    by_cases hk : k' = k
    · exact absurd (by simp [JSMap.has, JSMap.get?, hk]) h
    · have ht : ¬ JSMap.has t k = true := by
        intro ht
        apply h
        simpa [JSMap.has, JSMap.get?, hk] using ht
      simp [JSMap.set, hk, ih ht]

theorem registry_dense (dim : JSMap TimeValue Nat) (raw₀ : List (JSMap String Int))
    (rs : List Record) :
    (JSMap.keys (rs.foldl (recordStep dim) ⟨raw₀, [], []⟩).locKeyToIndex).Nodup ∧
    (rs.foldl (recordStep dim) ⟨raw₀, [], []⟩).locKeyToIndex.map Prod.snd =
      List.range (rs.foldl (recordStep dim) ⟨raw₀, [], []⟩).locations.length := by
  induction rs using List.reverseRecOn with
  | nil => simp [JSMap.keys]
  | append_singleton rs r' ih =>
    obtain ⟨h1, h2⟩ := ih
    have ha := (registry_inv dim raw₀ rs).1
    rw [List.foldl_append]
    simp only [List.foldl_cons, List.foldl_nil]
    generalize rs.foldl (recordStep dim) ⟨raw₀, [], []⟩ = st at h1 h2 ha
    by_cases hhas : JSMap.has st.locKeyToIndex r'.key = true
    · obtain ⟨e1, e2⟩ := recordStep_registry_of_has dim st r' hhas
      rw [e1, e2]
      exact ⟨h1, h2⟩
    · obtain ⟨e1, e2⟩ := recordStep_registry_of_not_has dim st r' hhas
      rw [e1, e2, JSMap.set_of_not_has _ _ _ hhas]
      constructor
      · unfold JSMap.keys at h1 ⊢
        rw [List.map_append, List.nodup_append]
        refine ⟨h1, by simp, ?_⟩
        intro a ha1 ha2
        simp only [List.map_cons, List.map_nil, List.mem_singleton] at ha2
        subst ha2
        exact hhas ((JSMap.has_iff_mem_keys _ _).mpr ha1)
      · rw [List.map_append, h2, List.length_append, List.length_singleton, List.range_succ]
        simp

theorem recordStep_registry_congr (dim dim' : JSMap TimeValue Nat) (st st' : LoadState)
    (r : Record) (h1 : st.locKeyToIndex = st'.locKeyToIndex) (h2 : st.locations = st'.locations) :
    (recordStep dim st r).locKeyToIndex = (recordStep dim' st' r).locKeyToIndex ∧
    (recordStep dim st r).locations = (recordStep dim' st' r).locations := by
  by_cases hhas : JSMap.has st.locKeyToIndex r.key = true
  · have hhas' : JSMap.has st'.locKeyToIndex r.key = true := h1 ▸ hhas
    obtain ⟨a1, a2⟩ := recordStep_registry_of_has dim st r hhas
    obtain ⟨b1, b2⟩ := recordStep_registry_of_has dim' st' r hhas'
    rw [a1, a2, b1, b2]
    exact ⟨h1, h2⟩
  · have hhas' : ¬ JSMap.has st'.locKeyToIndex r.key = true := h1 ▸ hhas
    obtain ⟨a1, a2⟩ := recordStep_registry_of_not_has dim st r hhas
    obtain ⟨b1, b2⟩ := recordStep_registry_of_not_has dim' st' r hhas'
    rw [a1, a2, b1, b2, h1, h2]
    exact ⟨rfl, rfl⟩

theorem recordLoop_registry_congr (dim dim' : JSMap TimeValue Nat) (rs : List Record) :
    ∀ st st' : LoadState, st.locKeyToIndex = st'.locKeyToIndex → st.locations = st'.locations →
      (rs.foldl (recordStep dim) st).locKeyToIndex =
        (rs.foldl (recordStep dim') st').locKeyToIndex ∧
      (rs.foldl (recordStep dim) st).locations = (rs.foldl (recordStep dim') st').locations := by
  induction rs with
  | nil => intro st st' h1 h2; exact ⟨h1, h2⟩
  | cons r rs ih =>
    intro st st' h1 h2
    obtain ⟨g1, g2⟩ := recordStep_registry_congr dim dim' st st' r h1 h2
    exact ih _ _ g1 g2

theorem loadRecords_snoc_of_seen (records : List Record) (r : Record)
    (h : r.key ∈ records.map Record.key) :
    (loadRecords (records ++ [r])).locKeyToIndex = (loadRecords records).locKeyToIndex ∧
    (loadRecords (records ++ [r])).locations = (loadRecords records).locations := by
  unfold loadRecords
  simp only [List.foldl_append, List.foldl_cons, List.foldl_nil]
  obtain ⟨g1, g2⟩ := recordLoop_registry_congr
    (buildDateIndexMap (buildDates (records ++ [r]))) (buildDateIndexMap (buildDates records))
    records ⟨(buildDates (records ++ [r])).map (fun _ => []), [], []⟩
    ⟨(buildDates records).map (fun _ => []), [], []⟩ rfl rfl
  have hhas : JSMap.has (records.foldl
      (recordStep (buildDateIndexMap (buildDates (records ++ [r]))))
      ⟨(buildDates (records ++ [r])).map (fun _ => []), [], []⟩).locKeyToIndex r.key = true :=
    ((registry_inv _ _ records).2.1 r.key).mpr h
  obtain ⟨e1, e2⟩ := recordStep_registry_of_has
    (buildDateIndexMap (buildDates (records ++ [r]))) _ r hhas
  rw [e1, e2]
  exact ⟨g1, g2⟩

/-! ## Lemmas on `computeCountryStats` -/

theorem JSMap.keys_set {κ ν : Type} [DecidableEq κ] (m : JSMap κ ν) (k : κ) (v : ν) :
    JSMap.keys (JSMap.set m k v) =
      if JSMap.has m k = true then JSMap.keys m else JSMap.keys m ++ [k] := by
  induction m with
  | nil => simp [JSMap.set, JSMap.keys, JSMap.has, JSMap.get?]
  | cons e t ih =>
    obtain ⟨k', v'⟩ := e
    by_cases hk : k' = k
    · simp [JSMap.set, JSMap.keys, JSMap.has, JSMap.get?, hk]
    · have hh : JSMap.has ((k', v') :: t) k = JSMap.has t k := by
        simp [JSMap.has, JSMap.get?, hk]
      rw [hh]
      simp only [JSMap.set, hk, if_false]
      unfold JSMap.keys at ih ⊢
      rw [List.map_cons, ih]
      split_ifs <;> simp

theorem JSMap.keys_set_nodup {κ ν : Type} [DecidableEq κ] (m : JSMap κ ν) (k : κ) (v : ν)
    (h : (JSMap.keys m).Nodup) : (JSMap.keys (JSMap.set m k v)).Nodup := by
  rw [JSMap.keys_set]
  split_ifs with hh
  · exact h
  · rw [List.nodup_append]
    refine ⟨h, List.nodup_singleton k, ?_⟩
    intro a ha hb
    rw [List.mem_singleton] at hb
    subst hb
    exact hh ((JSMap.has_iff_mem_keys _ _).mpr ha)

/-- The indices below `j` counted for label `c`. -/
theorem positiveIndices_range_succ (locations : List Location) (vals : List Int) (c : String)
    (j : Nat) :
    (List.range (j + 1)).filter
        (fun i => decide ((locations[i]?.map Location.label) = some c ∧ 0 < vals.getD i 0)) =
      (List.range j).filter
        (fun i => decide ((locations[i]?.map Location.label) = some c ∧ 0 < vals.getD i 0)) ++
      (if (locations[j]?.map Location.label) = some c ∧ 0 < vals.getD j 0 then [j] else []) := by
  rw [List.range_succ, List.filter_append]
  congr 1
  by_cases h : (locations[j]?.map Location.label) = some c ∧ 0 < vals.getD j 0
  · rw [if_pos h]
    simp only [List.filter_cons, List.filter_nil]
    rw [if_pos (decide_eq_true h)]
  · rw [if_neg h]
    simp only [List.filter_cons, List.filter_nil]
    rw [if_neg (by rw [decide_eq_true_eq]; exact h)]

theorem countryLoop_get? (locations : List Location) (vals : List Int)
    (hlen : vals.length = locations.length) (c : String) :
    ∀ j, j ≤ locations.length →
      JSMap.get? ((List.range j).foldl (countryStep locations vals) []) c =
        if (List.range j).filter (fun i =>
            decide ((locations[i]?.map Location.label) = some c ∧ 0 < vals.getD i 0)) = []
        then none
        else some (((List.range j).filter (fun i =>
            decide ((locations[i]?.map Location.label) = some c ∧ 0 < vals.getD i 0))).map
              (fun i => vals.getD i 0)).sum := by
  intro j
  induction j with
  | zero => intro _; simp [JSMap.get?]
  | succ j ih =>
    intro hj
    have ih' := ih (Nat.le_of_succ_le hj)
    have hjl : j < locations.length := hj
    have hjv : j < vals.length := by omega
    rw [positiveIndices_range_succ]
    rw [List.range_succ, List.foldl_append]
    simp only [List.foldl_cons, List.foldl_nil]
    generalize (List.range j).foldl (countryStep locations vals) [] = stats at ih'
    generalize (List.range j).filter (fun i =>
      decide ((locations[i]?.map Location.label) = some c ∧ 0 < vals.getD i 0)) = idx at ih'
    have hl : locations[j]? = some locations[j] := List.getElem?_eq_getElem hjl
    have hv : vals[j]? = some vals[j] := List.getElem?_eq_getElem hjv
    have hvD : vals.getD j 0 = vals[j] := by
      rw [List.getD_eq_getElem?_getD, hv]; rfl
    have hstep : countryStep locations vals stats j =
        if vals[j] ≤ 0 then stats
        else JSMap.set stats locations[j].label
          ((JSMap.get? stats locations[j].label).getD 0 + vals[j]) := by
      unfold countryStep
      rw [hl, hv]
    rw [hstep, hl, hvD]
    simp only [Option.map_some', Option.some.injEq]
    by_cases hpos : vals[j] ≤ 0
    · have hn : ¬ (locations[j].label = c ∧ 0 < vals[j]) := fun h => by omega
      rw [if_pos hpos, if_neg hn, List.append_nil]
      exact ih'
    · rw [if_neg hpos, JSMap.get?_set]
      by_cases hc : c = locations[j].label
      · subst hc
        have hy : locations[j].label = locations[j].label ∧ 0 < vals[j] := ⟨rfl, by omega⟩
        rw [if_pos rfl, if_pos hy, ih']
        have hne : idx ++ [j] ≠ [] := by simp
        rw [if_neg hne, List.map_append, List.sum_append]
        by_cases hi : idx = []
        · subst hi
          simp [hv]
        · rw [if_neg hi]
          simp [hv]
      · have hn : ¬ (locations[j].label = c ∧ 0 < vals[j]) := fun h => hc h.1.symm
        rw [if_neg hc, if_neg hn, List.append_nil]
        exact ih'

theorem computeCountryStats_get? (locations : List Location) (vals : List Int)
    (hlen : vals.length = locations.length) (c : String) :
    JSMap.get? (computeCountryStats locations vals) c =
      if positiveIndices locations vals c = [] then none
      else some (countryTotal locations vals c) :=
  countryLoop_get? locations vals hlen c locations.length le_rfl

theorem countryStep_keys_nodup (locations : List Location) (vals : List Int)
    (stats : JSMap String Int) (i : Nat) (h : (JSMap.keys stats).Nodup) :
    (JSMap.keys (countryStep locations vals stats i)).Nodup := by
  unfold countryStep
  split
  · split_ifs
    · exact h
    · exact JSMap.keys_set_nodup _ _ _ h
  · exact h

theorem computeCountryStats_keys_nodup (locations : List Location) (vals : List Int) :
    (JSMap.keys (computeCountryStats locations vals)).Nodup := by
  unfold computeCountryStats
  have : ∀ (is : List Nat) (stats : JSMap String Int), (JSMap.keys stats).Nodup →
      (JSMap.keys (is.foldl (countryStep locations vals) stats)).Nodup := by
    intro is
    induction is with
    | nil => intro stats h; exact h
    | cons i is ih =>
      intro stats h
      exact ih _ (countryStep_keys_nodup locations vals stats i h)
  exact this _ _ (by simp [JSMap.keys])

/-! ## Lemmas on `updateTopCountries` -/

theorem totalGe_iff (a b : String × Int) : totalGe a b ↔ b.2 ≤ a.2 := by
  unfold totalGe
  omega

theorem sum_pos_of_pos (f : Nat → Int) (l : List Nat) (hpos : ∀ i ∈ l, 0 < f i) (hne : l ≠ []) :
    0 < (l.map f).sum := by
  induction l with
  | nil => exact absurd rfl hne
  | cons a t ih =>
    rw [List.map_cons, List.sum_cons]
    have ha : 0 < f a := hpos a (List.mem_cons_self a t)
    by_cases ht : t = []
    · subst ht; simpa using ha
    · have := ih (fun i hi => hpos i (List.mem_cons_of_mem a hi)) ht
      omega

theorem mem_positiveIndices (locations : List Location) (vals : List Int) (c : String)
    (i : Nat) (h : i ∈ positiveIndices locations vals c) :
    i < locations.length ∧ (locations[i]?.map Location.label) = some c ∧ 0 < vals.getD i 0 := by
  unfold positiveIndices at h
  rw [List.mem_filter, List.mem_range, decide_eq_true_eq] at h
  exact h

theorem countryTotal_pos_iff (locations : List Location) (vals : List Int) (c : String) :
    0 < countryTotal locations vals c ↔ positiveIndices locations vals c ≠ [] := by
  constructor
  · intro h hnil
    unfold countryTotal at h
    rw [hnil] at h
    simp at h
  · intro hne
    exact sum_pos_of_pos _ _
      (fun i hi => (mem_positiveIndices locations vals c i hi).2.2) hne

theorem label_mem_of_positiveIndices (locations : List Location) (vals : List Int) (c : String)
    (hne : positiveIndices locations vals c ≠ []) : c ∈ locations.map Location.label := by
  obtain ⟨i, hi⟩ := List.exists_mem_of_ne_nil _ hne
  obtain ⟨_, h2, _⟩ := mem_positiveIndices locations vals c i hi
  rw [Option.map_eq_some'] at h2
  obtain ⟨loc, hloc, hlab⟩ := h2
  exact List.mem_map.mpr ⟨loc, List.getElem?_mem hloc, hlab⟩

theorem computeCountryStats_length (locations : List Location) (vals : List Int)
    (hlen : vals.length = locations.length) :
    (computeCountryStats locations vals).length = (positiveCountries locations vals).card := by
  have hnd := computeCountryStats_keys_nodup locations vals
  have h1 : (computeCountryStats locations vals).length =
      (JSMap.keys (computeCountryStats locations vals)).toFinset.card := by
    rw [List.toFinset_card_of_nodup hnd]
    simp [JSMap.keys]
  rw [h1]
  congr 1
  ext c
  rw [List.mem_toFinset, ← JSMap.has_iff_mem_keys]
  unfold positiveCountries
  rw [Finset.mem_filter, List.mem_toFinset, countryTotal_pos_iff]
  unfold JSMap.has
  rw [computeCountryStats_get? locations vals hlen c]
  by_cases hne : positiveIndices locations vals c = []
  · simp [hne]
  · simp only [hne, if_false, Option.isSome_some, not_false_eq_true, and_true, true_iff]
    exact ⟨label_mem_of_positiveIndices locations vals c hne, hne⟩

/-! ## Lemmas on `updateForDate` and playback -/

theorem updateForDate_of_empty (E : Engine) (index : Int) (h : E.dates.length = 0) :
    updateForDate E index = E := by
  simp [updateForDate, h]

theorem updateForDate_currentDateIndex (E : Engine) (index : Int) (h : 0 < E.dates.length) :
    (updateForDate E index).currentDateIndex =
      max 0 (min index ((E.dates.length : Int) - 1)) := by
  have h' : E.dates.length ≠ 0 := by omega
  simp [updateForDate, updateGuiDateControllerValue, h']

theorem updateForDate_dates (E : Engine) (index : Int) :
    (updateForDate E index).dates = E.dates := by
  unfold updateForDate
  split_ifs <;> rfl

theorem updateForDate_playInterval (E : Engine) (index : Int) :
    (updateForDate E index).playInterval = E.playInterval := by
  unfold updateForDate
  split_ifs <;> rfl

theorem clamp_idem (index : Int) (n : Nat) (h : 0 < n) :
    max 0 (min (max 0 (min index ((n : Int) - 1))) ((n : Int) - 1)) =
      max 0 (min index ((n : Int) - 1)) := by
  omega

theorem updateForDate_clamped (E : Engine) (index : Int) (h : 0 < E.dates.length) :
    updateForDate E (max 0 (min index ((E.dates.length : Int) - 1))) = updateForDate E index := by
  have h' : E.dates.length ≠ 0 := by omega
  simp only [updateForDate, h', if_false]
  rw [clamp_idem index E.dates.length h]

theorem tick_dates (E : Engine) : (tick E).dates = E.dates := by
  unfold tick
  rw [updateForDate_dates]

theorem tick_playInterval (E : Engine) : (tick E).playInterval = E.playInterval := by
  unfold tick
  rw [updateForDate_playInterval]

theorem tick_currentDateIndex (E : Engine) (h0 : 0 ≤ E.currentDateIndex)
    (h1 : E.currentDateIndex < E.dates.length) :
    (tick E).currentDateIndex =
      if E.currentDateIndex + 1 < E.dates.length then E.currentDateIndex + 1 else 0 := by
  have hpos : 0 < E.dates.length := by omega
  unfold tick
  simp only
  generalize hi : (if (E.dates.length : Int) ≤ E.currentDateIndex + 1 then 0
    else E.currentDateIndex + 1) = i
  have hu := updateForDate_currentDateIndex { E with currentDateIndex := i } i hpos
  rw [hu]
  simp only
  subst hi
  split_ifs <;> omega

theorem tick_mod (E : Engine) (h0 : 0 ≤ E.currentDateIndex)
    (h1 : E.currentDateIndex < E.dates.length) :
    (tick E).currentDateIndex = (E.currentDateIndex + 1) % (E.dates.length : Int) := by
  rw [tick_currentDateIndex E h0 h1]
  split_ifs with h
  · rw [Int.emod_eq_of_lt (by omega) h]
  · have : E.currentDateIndex + 1 = (E.dates.length : Int) := by omega
    rw [this, Int.emod_self]

theorem tick_iterate (E : Engine) (h0 : 0 ≤ E.currentDateIndex)
    (h1 : E.currentDateIndex < E.dates.length) (k : Nat) :
    (tick^[k] E).dates = E.dates ∧
    (tick^[k] E).playInterval = E.playInterval ∧
    (tick^[k] E).currentDateIndex = (E.currentDateIndex + k) % (E.dates.length : Int) := by
  have hpos : (0 : Int) < E.dates.length := by omega
  induction k with
  | zero =>
    refine ⟨rfl, rfl, ?_⟩
    simp only [Function.iterate_zero, id_eq, Nat.cast_zero, add_zero]
    rw [Int.emod_eq_of_lt h0 h1]
  | succ k ih =>
    obtain ⟨hd, hp, hi⟩ := ih
    rw [Function.iterate_succ_apply']
    refine ⟨by rw [tick_dates, hd], by rw [tick_playInterval, hp], ?_⟩
    have g0 : 0 ≤ (tick^[k] E).currentDateIndex := by
      rw [hi]; exact Int.emod_nonneg _ (by omega)
    have g1 : (tick^[k] E).currentDateIndex < ((tick^[k] E).dates.length : Int) := by
      rw [hi, hd]; exact Int.emod_lt_of_pos _ hpos
    rw [tick_mod _ g0 g1, hd, hi, Int.emod_add_emod]
    congr 1
    push_cast
    ring

/-! ## Lemmas on the array `values` -/

theorem JSMap.get?_append_singleton {κ ν : Type} [DecidableEq κ] (t : JSMap κ ν) (e : κ × ν)
    (k : κ) :
    JSMap.get? (t ++ [e]) k =
      match JSMap.get? t k with
      | some v => some v
      | none => if e.1 = k then some e.2 else none := by
  induction t with
  | nil => simp [JSMap.get?]
  | cons a t ih =>
    obtain ⟨k', v'⟩ := a
    by_cases h : k' = k
    · simp [JSMap.get?, h]
    · simp only [List.cons_append, JSMap.get?, h, if_false]
      exact ih

theorem JSMap.mem_of_get? {κ ν : Type} [DecidableEq κ] (m : JSMap κ ν) (k : κ) (v : ν)
    (h : JSMap.get? m k = some v) : (k, v) ∈ m := by
  induction m with
  | nil => simp [JSMap.get?] at h
  | cons a t ih =>
    obtain ⟨k', v'⟩ := a
    by_cases hk : k' = k
    · simp only [JSMap.get?, hk, if_true, Option.some.injEq] at h
      rw [hk, h]
      exact List.mem_cons_self _ _
    · simp only [JSMap.get?, hk, if_false] at h
      exact List.mem_cons_of_mem _ (ih h)

theorem JSMap.get?_of_mem_nodup {κ ν : Type} [DecidableEq κ] (m : JSMap κ ν)
    (hnd : (JSMap.keys m).Nodup) (e : κ × ν) (he : e ∈ m) : JSMap.get? m e.1 = some e.2 := by
  induction m with
  | nil => simp at he
  | cons a t ih =>
    obtain ⟨k', v'⟩ := a
    unfold JSMap.keys at hnd
    rw [List.map_cons, List.nodup_cons] at hnd
    rcases List.mem_cons.mp he with h | h
    · subst h
      simp [JSMap.get?]
    · have hm : e.1 ∈ t.map Prod.fst := List.mem_map_of_mem Prod.fst h
      have hne : k' ≠ e.1 := by
        intro heq
        apply hnd.1
        show k' ∈ List.map Prod.fst t
        rw [heq]
        exact hm
      simp only [JSMap.get?, hne, if_false]
      exact ih hnd.2 h

theorem registry_index_inj (locs : JSMap String Nat) (hnd : (locs.map Prod.snd).Nodup)
    (k k' : String) (i : Nat) (h : JSMap.get? locs k = some i)
    (h' : JSMap.get? locs k' = some i) : k = k' := by
  have e := List.inj_on_of_nodup_map hnd (JSMap.mem_of_get? locs k i h)
    (JSMap.mem_of_get? locs k' i h') rfl
  exact congrArg Prod.fst e

theorem valuesStep_length (locs : JSMap String Nat) (values : List Int) (e : String × Int) :
    (valuesStep locs values e).length = values.length := by
  unfold valuesStep
  split <;> simp

theorem valuesFold_length (locs : JSMap String Nat) (m : JSMap String Int) :
    ∀ init : List Int, (m.foldl (valuesStep locs) init).length = init.length := by
  induction m with
  | nil => intro init; rfl
  | cons e t ih => intro init; rw [List.foldl_cons, ih, valuesStep_length]

theorem valuesStep_getElem?_of_ne (locs : JSMap String Nat) (values : List Int)
    (e : String × Int) (i : Nat) (h : JSMap.get? locs e.1 ≠ some i) :
    (valuesStep locs values e)[i]? = values[i]? := by
  unfold valuesStep
  split
  · next j hj =>
    have hne : j ≠ i := fun heq => h (heq ▸ hj)
    rw [List.getElem?_set_ne hne]
  · rfl

theorem valuesFold_untouched (locs : JSMap String Nat) (m : JSMap String Int) (i : Nat) :
    ∀ init : List Int, (∀ e ∈ m, JSMap.get? locs e.1 ≠ some i) →
      (m.foldl (valuesStep locs) init)[i]? = init[i]? := by
  induction m with
  | nil => intro init _; rfl
  | cons e t ih =>
    intro init h
    rw [List.foldl_cons, ih _ (fun a ha => h a (List.mem_cons_of_mem e ha)),
      valuesStep_getElem?_of_ne locs init e i (h e (List.mem_cons_self e t))]

theorem valuesFold_written (locs : JSMap String Nat) (hinj : (locs.map Prod.snd).Nodup)
    (init : List Int) (m : JSMap String Int) :
    (JSMap.keys m).Nodup →
    ∀ (k : String) (i : Nat) (v : Int), JSMap.get? locs k = some i → i < init.length →
      JSMap.get? m k = some v →
        (m.foldl (valuesStep locs) init)[i]? = some (JS.fround v) := by
  induction m using List.reverseRecOn with
  | nil => intro _ k i v _ _ h; simp [JSMap.get?] at h
  | append_singleton t e ih =>
    intro hnd k i v hk hi hm
    unfold JSMap.keys at hnd
    rw [List.map_append, List.nodup_append] at hnd
    obtain ⟨hndt, _, hdisj⟩ := hnd
    have het : e.1 ∉ t.map Prod.fst := fun h => hdisj h (by simp)
    rw [List.foldl_append]
    simp only [List.foldl_cons, List.foldl_nil]
    rw [JSMap.get?_append_singleton] at hm
    rcases option_none_or_some (JSMap.get? t k) with hn | ⟨v', hs⟩
    · rw [hn] at hm
      simp only at hm
      split_ifs at hm with hek
      have hv : e.2 = v := Option.some.inj hm
      have hstep : valuesStep locs (t.foldl (valuesStep locs) init) e =
          (t.foldl (valuesStep locs) init).set i (JS.fround e.2) := by
        unfold valuesStep
        rw [hek, hk]
      rw [hstep, List.getElem?_set_self (by rw [valuesFold_length]; exact hi), hv]
    · rw [hs] at hm
      simp only [Option.some.injEq] at hm
      subst hm
      have hkt : k ∈ t.map Prod.fst :=
        List.mem_map_of_mem Prod.fst (JSMap.mem_of_get? t k v' hs)
      have hne : JSMap.get? locs e.1 ≠ some i := by
        intro he
        have := registry_index_inj locs hinj e.1 k i he hk
        exact het (this ▸ hkt)
      rw [valuesStep_getElem?_of_ne locs _ e i hne]
      exact ih hndt k i v' hk hi hs

theorem valuesOf_spec (n : Nat) (locs : JSMap String Nat) (m : JSMap String Int)
    (hinj : (locs.map Prod.snd).Nodup) (hnd : (JSMap.keys m).Nodup) :
    (valuesOf n locs m).length = n ∧
    (∀ (k : String) (i : Nat) (v : Int), JSMap.get? locs k = some i → i < n →
      JSMap.get? m k = some v → (valuesOf n locs m)[i]? = some (JS.fround v)) ∧
    (∀ i : Nat, i < n →
      (∀ (k : String) (v : Int), JSMap.get? m k = some v → JSMap.get? locs k ≠ some i) →
        (valuesOf n locs m)[i]? = some 0) := by
  unfold valuesOf
  refine ⟨by rw [valuesFold_length, List.length_replicate], ?_, ?_⟩
  · intro k i v hk hi hm
    exact valuesFold_written locs hinj _ m hnd k i v hk (by rw [List.length_replicate]; exact hi) hm
  · intro i hi hno
    rw [valuesFold_untouched locs m i _
      (fun e he => hno e.1 e.2 (JSMap.get?_of_mem_nodup m hnd e he))]
    rw [List.getElem?_eq_getElem (by rw [List.length_replicate]; exact hi)]
    simp

theorem updateForDate_values (E : Engine) (index : Int) (h : 0 < E.dates.length) :
    (updateForDate E index).values =
      valuesOf E.instancedCount E.locKeyToIndex
        (if E.settings.cumulative then
          E.cumulativeByDate[(updateForDate E index).currentDateIndex.toNat]?.getD []
         else E.dailyByDate[(updateForDate E index).currentDateIndex.toNat]?.getD []) := by
  rw [updateForDate_currentDateIndex E index h]
  have h' : E.dates.length ≠ 0 := by omega
  simp [updateForDate, updateGuiDateControllerValue, h', mapForDate]

theorem updateForDate_topPanel (E : Engine) (index : Int) (h : 0 < E.dates.length) :
    (updateForDate E index).topPanel =
      updateTopCountries E.settings.topN
        (computeCountryStats E.locations (updateForDate E index).values) := by
  have h' : E.dates.length ≠ 0 := by omega
  simp [updateForDate, updateGuiDateControllerValue, h']

theorem updateForDate_settings (E : Engine) (index : Int) (h : 0 < E.dates.length) :
    (updateForDate E index).settings.dateIndex = (updateForDate E index).currentDateIndex ∧
    (updateForDate E index).settings.dateLabel =
      some (E.dates[(updateForDate E index).currentDateIndex.toNat]?.getD none) := by
  have h' : E.dates.length ≠ 0 := by omega
  simp [updateForDate, updateGuiDateControllerValue, h']

/-- A count of `16777217` is stored in the `Float32Array` as `16777216`, so two
countries with the counts `16777216` and `16777217` are ranked as equal, in map
order. -/
theorem values_are_single_precision :
    valuesOf 2 [("y", 0), ("x", 1)] [("y", 16777216), ("x", 16777217)] =
      [16777216, 16777216] ∧
    updateTopCountries 10 (computeCountryStats
        [⟨.fin 0 0, .fin 0 0, "Y"⟩, ⟨.fin 1 0, .fin 0 0, "X"⟩]
        (valuesOf 2 [("y", 0), ("x", 1)] [("y", 16777216), ("x", 16777217)])) =
      [("Y", 16777216), ("X", 16777216)] := by
  decide

/-! ## Lemmas on row parsing -/

theorem parseCsvDate_isSome_iff (str : String) :
    (parseCsvDate str).isSome = true ↔ str ≠ "" ∧ 3 ≤ (JS.split '/' str.toList).length := by
  unfold parseCsvDate
  by_cases h : str = ""
  · simp [h]
  · simp only [h, if_false, ne_eq, not_false_eq_true, true_and, List.length_map]
    by_cases h3 : (JS.split '/' str.toList).length < 3
    · simp only [h3, if_true]
      constructor
      · intro hc; exact absurd hc (by simp)
      · intro hc; omega
    · simp only [h3, if_false]
      constructor
      · intro _; omega
      · intro _
        rcases hp : (JS.split '/' str.toList).map JS.toNumber with _ | ⟨m, _ | ⟨d, _ | ⟨y, t⟩⟩⟩
        · have := congrArg List.length hp
          rw [List.length_map] at this
          simp only [List.length_cons, List.length_nil] at this
          omega
        · have := congrArg List.length hp
          rw [List.length_map] at this
          simp only [List.length_cons, List.length_nil] at this
          omega
        · have := congrArg List.length hp
          rw [List.length_map] at this
          simp only [List.length_cons, List.length_nil] at this
          omega
        · simp

/-- The row loop pushes a record exactly when the line has at least 7 fields,
the latitude and longitude fields do not parse to `NaN`, and the date field is
non-empty with at least three `/`-separated parts. -/
theorem parseRow_isSome_iff (line : List Char) :
    (parseRow line).isSome = true ↔
      7 ≤ (JS.split ',' line).length ∧
      JS.parseFloat ((JS.split ',' line).getD 3 []) ≠ JSNum.nan ∧
      JS.parseFloat ((JS.split ',' line).getD 4 []) ≠ JSNum.nan ∧
      (JS.split ',' line).getD 5 [] ≠ [] ∧
      3 ≤ (JS.split '/' ((JS.split ',' line).getD 5 [])).length := by
  have hnan : ∀ x : JSNum, JS.isNaN x = true ↔ x = JSNum.nan := by
    intro x; cases x <;> simp [JS.isNaN]
  have hdate := parseCsvDate_isSome_iff (String.mk ((JS.split ',' line).getD 5 []))
  have hmk : String.mk ((JS.split ',' line).getD 5 []) ≠ "" ↔
      (JS.split ',' line).getD 5 [] ≠ [] := by
    constructor
    · intro h e; apply h; rw [e]
    · intro h e; apply h; exact congrArg String.data e
  rw [hmk] at hdate
  unfold parseRow
  by_cases h7 : (JS.split ',' line).length < 7
  · simp only [h7, if_true]
    constructor
    · intro hc; exact absurd hc (by simp)
    · intro hc; omega
  · simp only [h7, if_false]
    rcases hd : parseCsvDate (String.mk ((JS.split ',' line).getD 5 [])) with _ | date
    · rw [hd] at hdate
      simp only [Option.isSome_none, Bool.false_eq_true, false_iff] at hdate ⊢
      intro hc
      exact hdate ⟨hc.2.2.2.1, hc.2.2.2.2⟩
    · rw [hd] at hdate
      simp only [Option.isSome_some, true_iff] at hdate
      by_cases hl : JS.isNaN (JS.parseFloat ((JS.split ',' line).getD 3 [])) = true
      · simp only [hl, Bool.true_or, if_true, Option.isSome_none, Bool.false_eq_true, false_iff]
        intro hc
        exact hc.2.1 ((hnan _).mp hl)
      · by_cases hn : JS.isNaN (JS.parseFloat ((JS.split ',' line).getD 4 [])) = true
        · simp only [hn, Bool.or_true, if_true, Option.isSome_none, Bool.false_eq_true,
            false_iff]
          intro hc
          exact hc.2.2.1 ((hnan _).mp hn)
        · simp only [hl, hn, Bool.or_self, Bool.false_eq_true, if_false, Option.isSome_some,
            true_iff]
          exact ⟨by omega, fun e => hl ((hnan _).mpr e), fun e => hn ((hnan _).mpr e),
            hdate.1, hdate.2⟩

/-- A row whose latitude is `abc` is dropped: one valid row and one such row
give one record, one date and one location. -/
theorem bad_latitude_row_is_dropped :
    (parseRecords csvWithBadLatitude).length = 1 ∧
    (loadCSV csvWithBadLatitude).dates = [some 1579651200000] ∧
    (loadCSV csvWithBadLatitude).locations.length = 1 := by
  decide

/-- Empty input (header only): no location, no date, and an empty ranking. -/
theorem header_only_is_empty :
    (loadCSV "Province,Region,Country,Lat,Long,Date,Confirmed\n").locations.length = 0 ∧
    (loadCSV "Province,Region,Country,Lat,Long,Date,Confirmed\n").dates.length = 0 ∧
    (engineOf (parseRecords "Province,Region,Country,Lat,Long,Date,Confirmed\n")).topPanel
      = [] := by
  decide

/-! ## Claims -/

/-- C1: for every registered location key and every date index `d`, the
cumulative matrix built by `buildCumulativeAndDaily` holds the raw report for
that exact date when one exists, and otherwise the cumulative value of date
`d - 1` (or `0` when `d = 0`): a report replaces the running total, an absent
report carries it forward. -/
theorem cumulative_report_or_carry_forward {τ : Type} (dates : List τ)
    (rawValuesByDate : List (JSMap String Int)) (locKeyToIndex : JSMap String Nat)
    (hraw : rawValuesByDate.length = dates.length)
    (key : String) (hk : key ∈ JSMap.keys locKeyToIndex)
    (d : Nat) (hd : d < dates.length) :
    (cumulativeAt (buildCumulativeAndDaily dates rawValuesByDate locKeyToIndex) key d).isSome ∧
    cumulativeAt (buildCumulativeAndDaily dates rawValuesByDate locKeyToIndex) key d =
      (match rawAt rawValuesByDate key d with
       | some v => some v
       | none =>
         if d = 0 then some 0
         else cumulativeAt (buildCumulativeAndDaily dates rawValuesByDate locKeyToIndex)
           key (d - 1)) := by
  have _ := hraw
  rw [build_cumulativeAt]
  simp only [hd, hk, and_self, if_true, Option.isSome_some, true_and]
  cases d with
  | zero =>
    rcases option_none_or_some (rawAt rawValuesByDate key 0) with h | ⟨v, h⟩ <;>
      simp [cumScan, h]
  | succ d =>
    have hd' : d < dates.length := by omega
    rw [build_cumulativeAt]
    rcases option_none_or_some (rawAt rawValuesByDate key (d + 1)) with h | ⟨v, h⟩ <;>
      simp [cumScan, h, hd', hk]

/-- Scenario A evaluated, and C1 applied to it at the day without a report. -/
theorem cumulative_report_or_carry_forward_witness :
    (List.range 3).map (cumulativeAt (buildCumulativeAndDaily [1, 2, 3]
        [[("A", 100)], [], [("A", 150)]] [("A", 0)]) "A") = [some 100, some 100, some 150] ∧
    (cumulativeAt (buildCumulativeAndDaily [1, 2, 3]
        [[("A", 100)], [], [("A", 150)]] [("A", 0)]) "A" 1).isSome ∧
    cumulativeAt (buildCumulativeAndDaily [1, 2, 3]
        [[("A", 100)], [], [("A", 150)]] [("A", 0)]) "A" 1 =
      (match rawAt [[("A", 100)], [], [("A", 150)]] "A" 1 with
       | some v => some v
       | none =>
         if 1 = 0 then some 0
         else cumulativeAt (buildCumulativeAndDaily [1, 2, 3]
           [[("A", 100)], [], [("A", 150)]] [("A", 0)]) "A" (1 - 1)) :=
  ⟨by decide,
   cumulative_report_or_carry_forward [1, 2, 3] [[("A", 100)], [], [("A", 150)]] [("A", 0)]
     (by decide) "A" (by decide) 1 (by decide)⟩

/-- C2: for every registered location key and every date index `d`, the daily
matrix holds `max(0, cumulative[d] - cumulative[d-1])` with `cumulative[-1] = 0`,
where `-` is the subtraction of JavaScript numbers (the integer difference
rounded to the nearest double, which is the integer difference itself whenever
its magnitude is at most `2^53`); and no entry of the daily matrix, for any key
and any date index, is negative, whatever the raw reports are. -/
theorem daily_is_clamped_delta {τ : Type} (dates : List τ)
    (rawValuesByDate : List (JSMap String Int)) (locKeyToIndex : JSMap String Nat)
    (hraw : rawValuesByDate.length = dates.length)
    (key : String) (hk : key ∈ JSMap.keys locKeyToIndex)
    (d : Nat) (hd : d < dates.length) :
    (∃ c p : Int,
      cumulativeAt (buildCumulativeAndDaily dates rawValuesByDate locKeyToIndex) key d = some c ∧
      (if d = 0 then p = 0
       else cumulativeAt (buildCumulativeAndDaily dates rawValuesByDate locKeyToIndex)
         key (d - 1) = some p) ∧
      dailyAt (buildCumulativeAndDaily dates rawValuesByDate locKeyToIndex) key d =
        some (max 0 (JS.roundDouble (c - p))) ∧
      ((c - p).natAbs ≤ 2 ^ 53 →
        dailyAt (buildCumulativeAndDaily dates rawValuesByDate locKeyToIndex) key d =
          some (max 0 (c - p)))) ∧
    (∀ (k : String) (i : Nat) (v : Int),
      dailyAt (buildCumulativeAndDaily dates rawValuesByDate locKeyToIndex) k i = some v →
        0 ≤ v) := by
  have _ := hraw
  constructor
  · refine ⟨cumScan rawValuesByDate key d, prevScan rawValuesByDate key d, ?_, ?_, ?_, ?_⟩
    · simp [build_cumulativeAt, hd, hk]
    · cases d with
      | zero => simp [prevScan]
      | succ d =>
        have hd' : d < dates.length := by omega
        simp [build_cumulativeAt, hd', hk, prevScan]
    · simp [build_dailyAt, hd, hk, dailyScan]
    · intro hsmall
      rw [← roundDouble_of_natAbs_le _ hsmall]
      simp [build_dailyAt, hd, hk, dailyScan]
  · intro k i v hv
    rw [build_dailyAt] at hv
    split_ifs at hv
    simp only [Option.some.injEq] at hv
    rw [← hv]
    exact le_max_left _ _

/-- Scenario B evaluated (reports 100 then 80), and C2 applied to it at the day
of the downward correction. -/
theorem daily_is_clamped_delta_witness :
    (List.range 2).map (cumulativeAt (buildCumulativeAndDaily [1, 2]
        [[("A", 100)], [("A", 80)]] [("A", 0)]) "A") = [some 100, some 80] ∧
    (List.range 2).map (dailyAt (buildCumulativeAndDaily [1, 2]
        [[("A", 100)], [("A", 80)]] [("A", 0)]) "A") = [some 100, some 0] ∧
    ((∃ c p : Int,
      cumulativeAt (buildCumulativeAndDaily [1, 2]
        [[("A", 100)], [("A", 80)]] [("A", 0)]) "A" 1 = some c ∧
      (if 1 = 0 then p = 0
       else cumulativeAt (buildCumulativeAndDaily [1, 2]
         [[("A", 100)], [("A", 80)]] [("A", 0)]) "A" (1 - 1) = some p) ∧
      dailyAt (buildCumulativeAndDaily [1, 2]
        [[("A", 100)], [("A", 80)]] [("A", 0)]) "A" 1 =
          some (max 0 (JS.roundDouble (c - p))) ∧
      ((c - p).natAbs ≤ 2 ^ 53 →
        dailyAt (buildCumulativeAndDaily [1, 2]
          [[("A", 100)], [("A", 80)]] [("A", 0)]) "A" 1 = some (max 0 (c - p)))) ∧
    (∀ (k : String) (i : Nat) (v : Int),
      dailyAt (buildCumulativeAndDaily [1, 2]
        [[("A", 100)], [("A", 80)]] [("A", 0)]) k i = some v → 0 ≤ v)) :=
  ⟨by decide, by decide,
   daily_is_clamped_delta [1, 2] [[("A", 100)], [("A", 80)]] [("A", 0)]
     (by decide) "A" (by decide) 1 (by decide)⟩

/-- C10, as the claim states it, fails once a difference is too large for a
double: with reports `1` and then `9007199254740994` the cumulative values are
non-decreasing, but the second daily value is stored as `9007199254740992`, so
the daily sum `9007199254740993` is below the final cumulative value. -/
theorem daily_sum_below_final_cumulative_counterexample :
    (List.range 2).map (cumulativeAt (buildCumulativeAndDaily [1, 2]
        [[("A", 1)], [("A", 9007199254740994)]] [("A", 0)]) "A") =
      [some 1, some 9007199254740994] ∧
    (List.range 2).map (dailyAt (buildCumulativeAndDaily [1, 2]
        [[("A", 1)], [("A", 9007199254740994)]] [("A", 0)]) "A") =
      [some 1, some 9007199254740992] ∧
    dailySum (buildCumulativeAndDaily [1, 2]
        [[("A", 1)], [("A", 9007199254740994)]] [("A", 0)]) "A" 2 = 9007199254740993 ∧
    dailySum (buildCumulativeAndDaily [1, 2]
        [[("A", 1)], [("A", 9007199254740994)]] [("A", 0)]) "A" 2 <
      cumulativeVal (buildCumulativeAndDaily [1, 2]
        [[("A", 1)], [("A", 9007199254740994)]] [("A", 0)]) "A" (2 - 1) := by
  decide

/-- C10 amended: over a non-empty date sequence on which consecutive cumulative
values of a registered location (with `0` before the first) never differ by
more than `2^53`, the sum of the location's daily values is at least its final
cumulative value; the two are equal exactly when the cumulative sequence
preceded by `0` is non-decreasing; and any date at which the cumulative value
drops below its predecessor makes the daily sum strictly larger than the final
cumulative value. -/
theorem daily_sum_ge_final_cumulative {τ : Type} (dates : List τ)
    (rawValuesByDate : List (JSMap String Int)) (locKeyToIndex : JSMap String Nat)
    (hraw : rawValuesByDate.length = dates.length)
    (key : String) (hk : key ∈ JSMap.keys locKeyToIndex)
    (hne : 0 < dates.length)
    (hsmall : ∀ d, d < dates.length →
      (cumulativeVal (buildCumulativeAndDaily dates rawValuesByDate locKeyToIndex) key d -
        prevCumulativeVal (buildCumulativeAndDaily dates rawValuesByDate locKeyToIndex)
          key d).natAbs ≤ 2 ^ 53) :
    cumulativeVal (buildCumulativeAndDaily dates rawValuesByDate locKeyToIndex) key
        (dates.length - 1) ≤
      dailySum (buildCumulativeAndDaily dates rawValuesByDate locKeyToIndex) key dates.length ∧
    (dailySum (buildCumulativeAndDaily dates rawValuesByDate locKeyToIndex) key dates.length =
        cumulativeVal (buildCumulativeAndDaily dates rawValuesByDate locKeyToIndex) key
          (dates.length - 1) ↔
      ∀ d, d < dates.length →
        prevCumulativeVal (buildCumulativeAndDaily dates rawValuesByDate locKeyToIndex) key d ≤
          cumulativeVal (buildCumulativeAndDaily dates rawValuesByDate locKeyToIndex) key d) ∧
    ((∃ d, d < dates.length ∧
        cumulativeVal (buildCumulativeAndDaily dates rawValuesByDate locKeyToIndex) key d <
          prevCumulativeVal (buildCumulativeAndDaily dates rawValuesByDate locKeyToIndex) key d) →
      cumulativeVal (buildCumulativeAndDaily dates rawValuesByDate locKeyToIndex) key
          (dates.length - 1) <
        dailySum (buildCumulativeAndDaily dates rawValuesByDate locKeyToIndex) key
          dates.length) := by
  have _ := hraw
  have hexact : ∀ d, d < dates.length →
      JS.roundDouble (cumScan rawValuesByDate key d - prevScan rawValuesByDate key d) =
        cumScan rawValuesByDate key d - prevScan rawValuesByDate key d := by
    intro d hd
    have := hsmall d hd
    rw [build_prevCumulativeVal dates rawValuesByDate locKeyToIndex key hk d hd,
      build_cumulativeVal dates rawValuesByDate locKeyToIndex key hk d hd] at this
    exact roundDouble_of_natAbs_le _ this
  obtain ⟨h1, h2⟩ := scan_sum_ge rawValuesByDate key dates.length hexact
  have hlast : cumulativeVal (buildCumulativeAndDaily dates rawValuesByDate locKeyToIndex) key
      (dates.length - 1) = prevScan rawValuesByDate key dates.length := by
    rw [build_cumulativeVal dates rawValuesByDate locKeyToIndex key hk _ (by omega)]
    obtain ⟨n, hn⟩ : ∃ n, dates.length = n + 1 := ⟨dates.length - 1, by omega⟩
    rw [hn]
    rfl
  have hall : (∀ d, d < dates.length →
        prevCumulativeVal (buildCumulativeAndDaily dates rawValuesByDate locKeyToIndex) key d ≤
          cumulativeVal (buildCumulativeAndDaily dates rawValuesByDate locKeyToIndex) key d) ↔
      ∀ d, d < dates.length → prevScan rawValuesByDate key d ≤ cumScan rawValuesByDate key d := by
    constructor
    · intro h d hd
      have := h d hd
      rwa [build_prevCumulativeVal dates rawValuesByDate locKeyToIndex key hk d hd,
        build_cumulativeVal dates rawValuesByDate locKeyToIndex key hk d hd] at this
    · intro h d hd
      rw [build_prevCumulativeVal dates rawValuesByDate locKeyToIndex key hk d hd,
        build_cumulativeVal dates rawValuesByDate locKeyToIndex key hk d hd]
      exact h d hd
  rw [hlast, build_dailySum dates rawValuesByDate locKeyToIndex key hk, hall]
  refine ⟨h1, h2, ?_⟩
  rintro ⟨d, hd, hlt⟩
  rw [build_prevCumulativeVal dates rawValuesByDate locKeyToIndex key hk d hd,
    build_cumulativeVal dates rawValuesByDate locKeyToIndex key hk d hd] at hlt
  apply lt_of_le_of_ne h1
  intro heq
  have := h2.mp heq.symm d hd
  omega

/-- C10 amended, evaluated on Scenario B: the daily sum `100` exceeds the final
cumulative value `80`. -/
theorem daily_sum_ge_final_cumulative_witness :
    dailySum (buildCumulativeAndDaily [1, 2] [[("A", 100)], [("A", 80)]] [("A", 0)]) "A" 2
      = 100 ∧
    cumulativeVal (buildCumulativeAndDaily [1, 2] [[("A", 100)], [("A", 80)]] [("A", 0)]) "A"
      (2 - 1) = 80 ∧
    cumulativeVal (buildCumulativeAndDaily [1, 2] [[("A", 100)], [("A", 80)]] [("A", 0)]) "A"
        ([1, 2].length - 1) <
      dailySum (buildCumulativeAndDaily [1, 2] [[("A", 100)], [("A", 80)]] [("A", 0)]) "A"
        [1, 2].length :=
  ⟨by decide, by decide,
   (daily_sum_ge_final_cumulative [1, 2] [[("A", 100)], [("A", 80)]] [("A", 0)]
     (by decide) "A" (by decide) (by decide) (by decide)).2.2 ⟨1, by decide, by decide⟩⟩

/-- C3: after the record loop of `loadCSV`, the raw entry for a location key at
a date index is the sum of the confirmed counts of all records with that key
and that date, and there is no entry at all when no record has that key and
date. -/
theorem raw_report_is_sum_of_records (records : List Record) (key : String) (d : Nat)
    (hd : d < (ingest records).dates.length) :
    rawAt (ingest records).rawValuesByDate key d =
      if recordsFor records (ingest records).dates key d = [] then none
      else some ((recordsFor records (ingest records).dates key d).map
        (fun r => r.confirmed)).sum := by
  have hnd := buildDates_nodup records
  have hmem : ∀ r ∈ records, r.dateTs ∈ buildDates records :=
    fun r hr => (mem_buildDates records r.dateTs).mpr ⟨r, hr, rfl⟩
  have h := recordLoop_rawAt (buildDates records) hnd records hmem
    ⟨(buildDates records).map (fun _ => []), [], []⟩ (by simp) key d hd
  have h0 : rawAt ((buildDates records).map (fun _ => ([] : JSMap String Int))) key d = none := by
    simp only [rawAt]
    by_cases hlt : d < (buildDates records).length <;> simp [hlt, JSMap.get?]
  simp only [h0, Option.getD_none, zero_add] at h
  exact h

/-- Scenario C evaluated (two rows for one location and date, counts 30 and
20, give the raw report 50), and C3 applied to it. -/
theorem raw_report_is_sum_of_records_witness :
    rawAt (ingest [⟨"Italy", .fin 43 0, .fin 12 0, 30, some 1579737600000⟩,
        ⟨"Italy", .fin 43 0, .fin 12 0, 20, some 1579737600000⟩]).rawValuesByDate
      "43.0000,12.0000" 0 = some 50 ∧
    rawAt (ingest [⟨"Italy", .fin 43 0, .fin 12 0, 30, some 1579737600000⟩,
        ⟨"Italy", .fin 43 0, .fin 12 0, 20, some 1579737600000⟩]).rawValuesByDate
      "43.0000,12.0000" 0 =
      (if recordsFor [⟨"Italy", .fin 43 0, .fin 12 0, 30, some 1579737600000⟩,
          ⟨"Italy", .fin 43 0, .fin 12 0, 20, some 1579737600000⟩]
          (ingest [⟨"Italy", .fin 43 0, .fin 12 0, 30, some 1579737600000⟩,
            ⟨"Italy", .fin 43 0, .fin 12 0, 20, some 1579737600000⟩]).dates
          "43.0000,12.0000" 0 = [] then none
       else some ((recordsFor [⟨"Italy", .fin 43 0, .fin 12 0, 30, some 1579737600000⟩,
          ⟨"Italy", .fin 43 0, .fin 12 0, 20, some 1579737600000⟩]
          (ingest [⟨"Italy", .fin 43 0, .fin 12 0, 30, some 1579737600000⟩,
            ⟨"Italy", .fin 43 0, .fin 12 0, 20, some 1579737600000⟩]).dates
          "43.0000,12.0000" 0).map (fun r => r.confirmed)).sum) :=
  ⟨by decide,
   raw_report_is_sum_of_records [⟨"Italy", .fin 43 0, .fin 12 0, 30, some 1579737600000⟩,
     ⟨"Italy", .fin 43 0, .fin 12 0, 20, some 1579737600000⟩] "43.0000,12.0000" 0 (by decide)⟩

/-- C8: after the record loop of `loadCSV`, the registry holds exactly one
location per distinct coordinate key, the indices are `0 .. k-1` in insertion
order, the index of a key is the number of distinct keys seen before its first
record, the stored location (country included) is that of the first record with
the key, and a record whose key was seen before changes neither
`locKeyToIndex` nor `locations`, whatever its country. -/
theorem location_registry_first_seen (records : List Record) :
    (ingest records).locations.length = (records.map Record.key).toFinset.card ∧
    (JSMap.keys (ingest records).locKeyToIndex).Nodup ∧
    (∀ k, k ∈ JSMap.keys (ingest records).locKeyToIndex ↔ k ∈ records.map Record.key) ∧
    (ingest records).locKeyToIndex.map Prod.snd =
      List.range (ingest records).locations.length ∧
    (∀ (j : Nat) (r : Record), records[j]? = some r →
      r.key ∉ (records.take j).map Record.key →
        JSMap.get? (ingest records).locKeyToIndex r.key =
          some ((records.take j).map Record.key).toFinset.card ∧
        (ingest records).locations[((records.take j).map Record.key).toFinset.card]? =
          some ⟨r.lat, r.lon, r.country⟩) ∧
    (∀ r : Record, r.key ∈ records.map Record.key →
      (ingest (records ++ [r])).locKeyToIndex = (ingest records).locKeyToIndex ∧
      (ingest (records ++ [r])).locations = (ingest records).locations) := by
  have hinv := registry_inv (buildDateIndexMap (buildDates records))
    ((buildDates records).map (fun _ => [])) records
  have hdense := registry_dense (buildDateIndexMap (buildDates records))
    ((buildDates records).map (fun _ => [])) records
  obtain ⟨ha, hb, hc, hd⟩ := hinv
  refine ⟨?_, hdense.1, ?_, hdense.2, hd, ?_⟩
  · exact ha.trans hc
  · intro k
    rw [← JSMap.has_iff_mem_keys]
    exact hb k
  · intro r hr
    exact loadRecords_snoc_of_seen records r hr

/-- The sample records evaluated (the second record repeats the key of the
first with another country and is ignored by the registry), and C8 applied to
the first and the third record. -/
theorem location_registry_first_seen_witness :
    (ingest sampleRecords).locKeyToIndex =
      [("43.0000,12.0000", 0), ("30.9756,112.2707", 1)] ∧
    (ingest sampleRecords).locations.map (fun l => l.country) = ["Italy", "China"] ∧
    (JSMap.get? (ingest sampleRecords).locKeyToIndex
        (Record.key ⟨"China", .fin 309756 4, .fin 1122707 4, 444, some 1579651200000⟩) =
      some ((sampleRecords.take 2).map Record.key).toFinset.card ∧
     (ingest sampleRecords).locations[((sampleRecords.take 2).map Record.key).toFinset.card]? =
      some ⟨.fin 309756 4, .fin 1122707 4, "China"⟩) :=
  ⟨by decide, by decide,
   (location_registry_first_seen sampleRecords).2.2.2.2.1 2
     ⟨"China", .fin 309756 4, .fin 1122707 4, 444, some 1579651200000⟩
     (by decide) (by decide)⟩

/-- C4, as the claim states it, fails on a location whose stored country is the
empty string: grouped by stored country the name `""` has total `5`, but
`computeCountryStats` has no entry for `""` and files the value under
`"Unknown"`, a name no location stores. -/
theorem country_stats_stored_country_counterexample :
    storedCountryTotal [⟨.fin 0 0, .fin 0 0, ""⟩] [5] "" = 5 ∧
    JSMap.get? (computeCountryStats [⟨.fin 0 0, .fin 0 0, ""⟩] [5]) "" = none ∧
    storedCountryTotal [⟨.fin 0 0, .fin 0 0, ""⟩] [5] "Unknown" = 0 ∧
    JSMap.get? (computeCountryStats [⟨.fin 0 0, .fin 0 0, ""⟩] [5]) "Unknown" = some 5 := by
  decide

/-- C4 amended: for every values array with one value per location and every
name `c`, `computeCountryStats` maps `c` to the sum of the positive values of
the locations whose country label (the stored country, or `"Unknown"` when the
stored country is empty) is `c`; it has no entry for `c` when no such location
has a positive value, so every stored total is positive. -/
theorem country_stats_by_label (locations : List Location) (vals : List Int)
    (hlen : vals.length = locations.length) (c : String) :
    JSMap.get? (computeCountryStats locations vals) c =
      (if positiveIndices locations vals c = [] then none
       else some (countryTotal locations vals c)) ∧
    (∀ v, JSMap.get? (computeCountryStats locations vals) c = some v → 0 < v) := by
  refine ⟨computeCountryStats_get? locations vals hlen c, ?_⟩
  intro v hv
  rw [computeCountryStats_get? locations vals hlen c] at hv
  split_ifs at hv with hne
  rw [← Option.some.inj hv]
  exact (countryTotal_pos_iff locations vals c).mpr hne

/-- C4 amended, applied to three locations of which two are labelled
`"Unknown"` and one has a non-positive value. -/
theorem country_stats_by_label_witness :
    computeCountryStats sampleLocations sampleValues = [("Unknown", 11)] ∧
    JSMap.get? (computeCountryStats sampleLocations sampleValues) "Unknown" =
      (if positiveIndices sampleLocations sampleValues "Unknown" = [] then none
       else some (countryTotal sampleLocations sampleValues "Unknown")) :=
  ⟨by decide,
   (country_stats_by_label sampleLocations sampleValues (by decide) "Unknown").1⟩

/-- C5: for every totals map and every `n`, the list ranked by
`updateTopCountries` is the first `min(n, size of the map)` entries of the
entries sorted by total, descending, entries with equal totals keeping their
map order; it is non-increasing in total, and for a map computed by
`computeCountryStats` its length is at most `min(n, number of country labels
with a positive total)`. -/
theorem top_countries_ranked (statsMap : JSMap String Int) (n : Nat) :
    (∃ sorted : List (String × Int),
      sorted.Perm statsMap ∧
      sorted.Pairwise (fun a b => b.2 ≤ a.2) ∧
      (∀ a b : String × Int, List.Sublist [a, b] statsMap → a.2 = b.2 →
        List.Sublist [a, b] sorted) ∧
      updateTopCountries n statsMap = sorted.take (min n statsMap.length)) ∧
    (updateTopCountries n statsMap).Pairwise (fun a b => b.2 ≤ a.2) ∧
    (updateTopCountries n statsMap).length = min n statsMap.length ∧
    (∀ (locations : List Location) (vals : List Int), vals.length = locations.length →
      statsMap = computeCountryStats locations vals →
        (updateTopCountries n statsMap).length ≤
          min n (positiveCountries locations vals).card) := by
  have hsorted : (statsMap.insertionSort totalGe).Pairwise (fun a b => b.2 ≤ a.2) :=
    (List.sorted_insertionSort totalGe statsMap).imp (fun h => (totalGe_iff _ _).mp h)
  have hlen : (updateTopCountries n statsMap).length = min n statsMap.length := by
    unfold updateTopCountries
    simp only [List.length_take, List.length_insertionSort]
    omega
  refine ⟨⟨statsMap.insertionSort totalGe, List.perm_insertionSort totalGe statsMap, hsorted,
    ?_, ?_⟩, ?_, hlen, ?_⟩
  · intro a b hab heq
    exact List.pair_sublist_insertionSort ((totalGe_iff a b).mpr (by omega)) hab
  · unfold updateTopCountries
    simp only [List.length_insertionSort]
  · unfold updateTopCountries
    exact hsorted.sublist (List.take_sublist _ _)
  · intro locations vals hl hm
    rw [hlen, hm, computeCountryStats_length locations vals hl]

/-- C5 evaluated on a map with ties (the two entries of total `5` and the two
of total `3` keep their map order), and applied to the totals of three
locations. -/
theorem top_countries_ranked_witness :
    updateTopCountries 3 [("A", 3), ("B", 5), ("C", 3), ("D", 5)] =
      [("B", 5), ("D", 5), ("A", 3)] ∧
    (updateTopCountries 1 (computeCountryStats sampleLocations sampleValues)).length ≤
      min 1 (positiveCountries sampleLocations sampleValues).card :=
  ⟨by decide,
   (top_countries_ranked (computeCountryStats sampleLocations sampleValues) 1).2.2.2
     sampleLocations sampleValues (by decide) rfl⟩

/-- C6, as the claim states it, fails: with two dates and current index `0`,
`updateForDate(7)` is not rejected; it moves the current date index to `1` and
produces the values of date `1`, and `updateForDate(-3)` run after it moves the
index back to `0`. -/
theorem update_for_date_out_of_range_counterexample :
    (engineOf sampleRecords).dates.length = 2 ∧
    (engineOf sampleRecords).currentDateIndex = 0 ∧
    (updateForDate (engineOf sampleRecords) 7).currentDateIndex = 1 ∧
    (updateForDate (engineOf sampleRecords) 7).values =
      (updateForDate (engineOf sampleRecords) 1).values ∧
    (updateForDate (engineOf sampleRecords) 7).values ≠ (engineOf sampleRecords).values ∧
    (updateForDate (updateForDate (engineOf sampleRecords) 7) (-3)).currentDateIndex = 0 := by
  decide

/-- C6 amended: `updateForDate` clamps.  With no dates it returns the state
unchanged.  With at least one date the current date index becomes
`max(0, min(index, dateCount - 1))`: an index below `0` acts as `0`, an index
of `dateCount` or more acts as `dateCount - 1`, an index in range is taken as it
is.  The values are those of that clamped date: the array `values` is built
from the map of the new current date index (`cumulativeByDate` or
`dailyByDate`, by `settings.cumulative`), so that, the registry indices and the
keys of that map being distinct, the value of a registered location is the
single-precision rounding of its entry in that map and `0` when it has none;
the ranking is `updateTopCountries` of `computeCountryStats` of these values;
and `settings.dateIndex` and the date label follow the clamped index. -/
theorem update_for_date_clamps (E : Engine) (index : Int) :
    (E.dates.length = 0 → updateForDate E index = E) ∧
    (0 < E.dates.length →
      (updateForDate E index).currentDateIndex =
        max 0 (min index ((E.dates.length : Int) - 1)) ∧
      0 ≤ (updateForDate E index).currentDateIndex ∧
      (updateForDate E index).currentDateIndex < E.dates.length ∧
      (index < 0 → (updateForDate E index).currentDateIndex = 0) ∧
      ((E.dates.length : Int) ≤ index →
        (updateForDate E index).currentDateIndex = (E.dates.length : Int) - 1) ∧
      (0 ≤ index → index < E.dates.length → (updateForDate E index).currentDateIndex = index) ∧
      updateForDate E index =
        updateForDate E (max 0 (min index ((E.dates.length : Int) - 1))) ∧
      (updateForDate E index).values =
        valuesOf E.instancedCount E.locKeyToIndex
          (if E.settings.cumulative then
            E.cumulativeByDate[(updateForDate E index).currentDateIndex.toNat]?.getD []
           else E.dailyByDate[(updateForDate E index).currentDateIndex.toNat]?.getD []) ∧
      ((E.locKeyToIndex.map Prod.snd).Nodup →
        (JSMap.keys (if E.settings.cumulative then
            E.cumulativeByDate[(updateForDate E index).currentDateIndex.toNat]?.getD []
          else E.dailyByDate[(updateForDate E index).currentDateIndex.toNat]?.getD [])).Nodup →
        (updateForDate E index).values.length = E.instancedCount ∧
        (∀ (k : String) (i : Nat) (v : Int),
          JSMap.get? E.locKeyToIndex k = some i → i < E.instancedCount →
          JSMap.get? (if E.settings.cumulative then
              E.cumulativeByDate[(updateForDate E index).currentDateIndex.toNat]?.getD []
            else E.dailyByDate[(updateForDate E index).currentDateIndex.toNat]?.getD []) k
            = some v →
          (updateForDate E index).values[i]? = some (JS.fround v)) ∧
        (∀ i : Nat, i < E.instancedCount →
          (∀ (k : String) (v : Int),
            JSMap.get? (if E.settings.cumulative then
                E.cumulativeByDate[(updateForDate E index).currentDateIndex.toNat]?.getD []
              else E.dailyByDate[(updateForDate E index).currentDateIndex.toNat]?.getD []) k
              = some v →
            JSMap.get? E.locKeyToIndex k ≠ some i) →
          (updateForDate E index).values[i]? = some 0)) ∧
      (updateForDate E index).topPanel =
        updateTopCountries E.settings.topN
          (computeCountryStats E.locations (updateForDate E index).values) ∧
      (updateForDate E index).settings.dateIndex = (updateForDate E index).currentDateIndex ∧
      (updateForDate E index).settings.dateLabel =
        some (E.dates[(updateForDate E index).currentDateIndex.toNat]?.getD none)) := by
  refine ⟨updateForDate_of_empty E index, fun h => ?_⟩
  have hc := updateForDate_currentDateIndex E index h
  have hv := updateForDate_values E index h
  refine ⟨hc, ?_, ?_, ?_, ?_, ?_, (updateForDate_clamped E index h).symm, hv, ?_,
    updateForDate_topPanel E index h, (updateForDate_settings E index h).1,
    (updateForDate_settings E index h).2⟩
  · rw [hc]; omega
  · rw [hc]; omega
  · intro hi; rw [hc]; omega
  · intro hi; rw [hc]; omega
  · intro hi hj; rw [hc]; omega
  · intro hinj hnd
    rw [hv]
    exact valuesOf_spec E.instancedCount E.locKeyToIndex _ hinj hnd

/-- C6 amended, applied to the sample engine (two dates, daily mode) and index
`7`: the index becomes `1`, and the value of the location registered at index
`0` is its daily entry `10` of date `1`. -/
theorem update_for_date_clamps_witness :
    (updateForDate (engineOf sampleRecords) 7).currentDateIndex =
      ((engineOf sampleRecords).dates.length : Int) - 1 ∧
    (updateForDate (engineOf sampleRecords) 7).values = [10, 0] ∧
    (updateForDate (engineOf sampleRecords) 7).topPanel = [("Italy", 10)] ∧
    (updateForDate (engineOf sampleRecords) 7).values[0]? = some (JS.fround 10) :=
  ⟨((update_for_date_clamps (engineOf sampleRecords) 7).2 (by decide)).2.2.2.2.1 (by decide),
   by decide, by decide,
   (((update_for_date_clamps (engineOf sampleRecords) 7).2 (by decide)).2.2.2.2.2.2.2.2.1
     (by decide) (by decide)).2.1 "43.0000,12.0000" 0 10 (by decide) (by decide) (by decide)⟩

/-- C9: when there is at least one date and the current date index `i` is in
range, one playback tick leaves the index at `(i + 1) mod N`: `i + 1` when that
is below `N`, and `0` when `i = N - 1`; the index stays in `[0, N)`, the tick
leaves the timer in place, and after any number `k` of ticks the index is
`(i + k) mod N` with the timer still in place. -/
theorem tick_advances_cyclically (E : Engine) (hN : 1 ≤ E.dates.length)
    (h0 : 0 ≤ E.currentDateIndex) (h1 : E.currentDateIndex < E.dates.length) :
    (tick E).currentDateIndex = (E.currentDateIndex + 1) % (E.dates.length : Int) ∧
    (E.currentDateIndex + 1 < E.dates.length →
      (tick E).currentDateIndex = E.currentDateIndex + 1) ∧
    (E.currentDateIndex = (E.dates.length : Int) - 1 → (tick E).currentDateIndex = 0) ∧
    0 ≤ (tick E).currentDateIndex ∧
    (tick E).currentDateIndex < E.dates.length ∧
    (tick E).dates = E.dates ∧
    (tick E).playInterval = E.playInterval ∧
    (∀ k : Nat,
      (tick^[k] E).currentDateIndex = (E.currentDateIndex + k) % (E.dates.length : Int) ∧
      (tick^[k] E).playInterval = E.playInterval) := by
  have _ := hN
  have hc := tick_currentDateIndex E h0 h1
  refine ⟨tick_mod E h0 h1, ?_, ?_, ?_, ?_, tick_dates E, tick_playInterval E, ?_⟩
  · intro h; rw [hc, if_pos h]
  · intro h; rw [hc, if_neg (by omega)]
  · rw [hc]; split_ifs <;> omega
  · rw [hc]; split_ifs <;> omega
  · intro k
    obtain ⟨_, hp, hi⟩ := tick_iterate E h0 h1 k
    exact ⟨hi, hp⟩

/-- C9 evaluated on the sample engine while it plays (two dates: the index goes
`0, 1, 0`), and the theorem applied to it. -/
theorem tick_advances_cyclically_witness :
    (tick (startPlay (engineOf sampleRecords))).currentDateIndex = 1 ∧
    (tick (tick (startPlay (engineOf sampleRecords)))).currentDateIndex = 0 ∧
    (tick (tick (startPlay (engineOf sampleRecords)))).playInterval = some 400 ∧
    (tick (startPlay (engineOf sampleRecords))).currentDateIndex =
      ((startPlay (engineOf sampleRecords)).currentDateIndex + 1) %
        ((startPlay (engineOf sampleRecords)).dates.length : Int) :=
  ⟨by decide, by decide, by decide,
   (tick_advances_cyclically (startPlay (engineOf sampleRecords))
     (by decide) (by decide) (by decide)).1⟩

/-- C7 on a failing input: a data row whose date field is `a/b/c` (three parts,
none numeric) is not dropped.  `parseCsvDate` returns an Invalid Date, which
passes the test `!date`; the row yields a record with time value `NaN`, a
`NaN` entry in `dates`, and a registered location. -/
theorem bad_date_row_is_kept :
    parseCsvDate "a/b/c" = some ⟨none⟩ ∧
    parseRecords csvWithBadDate =
      [⟨"China", .fin 309756 4, .fin 1122707 4, 444, none⟩] ∧
    (loadCSV csvWithBadDate).dates = [none] ∧
    (loadCSV csvWithBadDate).locations.length = 1 := by
  decide

end CovidViz
